import Mathlib

/-! Blocklist aggregation and Unbound configuration rendering (`pkg/dns/conf.go`).

A shallow embedding of `getList`, `buildBlockedHostnames`, `buildBlockedIPs`,
`BuildBlocked` and `generateUnboundConf`.

Modelling conventions:

* a Go `string` is a Lean `String`; `<` on Go strings is the lexicographic order of the
  character lists (`String.toList`), which agrees with Go's bytewise order on UTF-8 text;
* a Go slice that may be `nil` is an `Option (List String)` (`none` is `nil`);
* a `map[string]struct{}` is the list of its keys, kept free of duplicates; the order in
  which `range` visits a map is unspecified in Go and is an explicit input of the model;
* a run-time panic (index or slice bound out of range) is the result `none`;
* goroutines that send on unbuffered channels are lists of pending sends; the sequence of
  messages a `select` loop receives is an explicit input, constrained by `Interleaving`;
* the predicates `HostnamesRun`, `IPsRun` and `BuildBlockedRun` collect the results of all
  executions (all arrival orders and iteration orders), and `HostnamesReturns`, `IPsReturns`
  and `BuildBlockedReturns` say that every execution returns;
* constants, types and helpers that the source files at hand only use (the block-list URLs,
  `models.UnboundSettings`, the provider data, the file names) are parameters.
-/

namespace Dns

/-! ## Errors and the HTTP environment -/

/-- Go `error` values. Go compares error values by identity, so the value of the package
variable `ErrBadStatusCode` is a constructor of its own: an error created elsewhere with the
same text is a different value. -/
inductive GoError where
  /-- An error created outside this package (by the HTTP library, the transport, the
  context), with the text returned by its method `Error()`. -/
  | new (msg : String)
  /-- The result of `fmt.Errorf` wrapping `inner` with `%w`. -/
  | wrap (inner : GoError) (msg : String)
  /-- The value of the package variable `ErrBadStatusCode`. -/
  | badStatusCode
  deriving DecidableEq

/-- The text returned by the method `Error()`. -/
def GoError.message : GoError → String
  | .new msg => msg
  | .wrap _ msg => msg
  | .badStatusCode => "bad HTTP status code"

/-- The call `errors.Is(err, ErrBadStatusCode)`: the value of the package variable occurs
in the wrapping chain of `err`. -/
def GoError.isBadStatusCode : GoError → Bool
  | .new _ => false
  | .wrap inner _ => inner.isBadStatusCode
  | .badStatusCode => true

/-- An HTTP response as `getList` observes it. -/
structure Response where
  /-- Field `response.StatusCode`. -/
  statusCode : Int
  /-- Field `response.Status`. -/
  status : String
  /-- Result of `ioutil.ReadAll(response.Body)`. -/
  body : Except GoError String
  /-- Result of `response.Body.Close()`. -/
  close : Option GoError

/-- What happens when `getList` issues its GET request. -/
inductive HttpOutcome where
  /-- The call `http.NewRequestWithContext` fails. -/
  | requestError (e : GoError)
  /-- The call `client.Do` fails (network failure, cancellation, deadline). -/
  | transportError (e : GoError)
  /-- The call `client.Do` returns a response. -/
  | response (r : Response)

/-- The package variable `ErrBadStatusCode = errors.New("bad HTTP status code")`. -/
def ErrBadStatusCode : GoError := .badStatusCode

/-- The constant `http.StatusOK`. -/
def statusOK : Int := 200

/-! ## `getList` -/

/-- The call `strings.Split(s, "\n")`. -/
def splitNewline (s : String) : List String :=
  (s.toList.splitOn '\n').map String.mk

/-- State of the empty-line removal loop: the slice `results` and the index `last`. -/
structure LoopState where
  results : List String
  last : Int

/-- One iteration of `for i := range results` in `getList`:
`if len(results[i]) == 0 { results[i] = results[last]; last-- }`.
An index out of range is a panic (`none`). -/
def removeEmptyIter (i : Nat) (st : LoopState) : Option LoopState :=
  match st.results[i]? with
  | none => none
  | some s =>
    if s.length = 0 then
      if st.last < 0 then none
      else
        match st.results[st.last.toNat]? with
        | none => none
        | some moved => some { results := st.results.set i moved, last := st.last - 1 }
    else some st

/-- Iterations `i, i+1, ..., i+k-1` of the removal loop. -/
def removeEmptyFrom : Nat → Nat → LoopState → Option LoopState
  | _, 0, st => some st
  | i, k + 1, st => (removeEmptyIter i st).bind (removeEmptyFrom (i + 1) k)

/-- The whole loop: `last := len(results) - 1; for i := range results { ... }`. The range
bound is the length of the slice when the loop starts. -/
def removeEmptyLoop (results : List String) : Option LoopState :=
  removeEmptyFrom 0 results.length { results := results, last := (results.length : Int) - 1 }

/-- The slice expression `results[:last+1]`; bounds out of range panic. -/
def sliceTo (st : LoopState) : Option (List String) :=
  if 0 ≤ st.last + 1 ∧ st.last + 1 ≤ (st.results.length : Int) then
    some (st.results.take (st.last + 1).toNat)
  else none

/-- The part of `getList` that follows the successful read of the body (lines 210-225). -/
def parseList (content : String) : Option (Option (List String) × Option GoError) :=
  (removeEmptyLoop (splitNewline content)).bind fun st =>
    (sliceTo st).map fun results =>
      if results.length = 0 then (none, none) else (some results, none)

/-- The function `getList`, given the outcome of the HTTP exchange for its URL. The result
is `none` when the function panics, otherwise the pair `(results, err)`. -/
def getList (o : HttpOutcome) : Option (Option (List String) × Option GoError) :=
  match o with
  | .requestError e => some (none, some e)
  | .transportError e => some (none, some e)
  | .response r =>
    if r.statusCode ≠ statusOK then
      some (none, some (.wrap ErrBadStatusCode
        (ErrBadStatusCode.message ++ ": " ++ toString r.statusCode ++ " " ++ r.status)))
    else
      match r.body with
      | .error e => some (none, some e)
      | .ok content =>
        match r.close with
        | some e => some (none, some e)
        | none => parseList content

/-- A `200 OK` response whose body is read and closed without error. -/
def okResponse (body : String) : HttpOutcome :=
  .response { statusCode := 200, status := "200 OK", body := .ok body, close := none }

/-! ## Goroutines, channels and `select` loops -/

/-- The sequences in which a receiver can take the messages that the goroutines `qs` send:
each goroutine is the list of its pending sends, every send blocks until it is received,
so the received sequence is an interleaving that keeps each goroutine's own order. -/
inductive Interleaving {α : Type} : List (List α) → List α → Prop
  | done (qs : List (List α)) : (∀ q ∈ qs, q = []) → Interleaving qs []
  | recv (pre post : List (List α)) (m : α) (rest t : List α) :
      Interleaving (pre ++ rest :: post) t →
      Interleaving (pre ++ (m :: rest) :: post) (m :: t)

/-- The loop `for counter > 0 { select { ... } }`: while the counter held in the state is
positive the next message is received and handled. With no message left to receive and a
positive counter the loop blocks forever (`none`). -/
def recvLoop {α σ : Type} (counter : σ → Nat) (handle : σ → α → σ) : List α → σ → Option σ
  | [], s => if counter s = 0 then some s else none
  | m :: t, s => if counter s = 0 then some s else recvLoop counter handle t (handle s m)

/-- The order in which a `range` loop visits the keys of a map: every key exactly once, in
an order Go leaves unspecified. -/
def IsRangeOrder {α : Type} (rangeOrder : List α → List α) : Prop :=
  ∀ m, (rangeOrder m).Perm m

/-- The call `sort.Slice(x, func(i, j int) bool { return x[i] < x[j] })`. -/
def sortSlice (x : List String) : List String :=
  x.insertionSort (fun a b => a.toList ≤ b.toList)

/-! ## `buildBlockedHostnames` and `buildBlockedIPs` -/

/-- The six block-list URL constants (`maliciousBlockListHostnamesURL`, ...), which are
declared outside the source files at hand. -/
structure BlockListURLs where
  maliciousBlockListHostnamesURL : String
  adsBlockListHostnamesURL : String
  surveillanceBlockListHostnamesURL : String
  maliciousBlockListIPsURL : String
  adsBlockListIPsURL : String
  surveillanceBlockListIPsURL : String

/-- A message received by the aggregation loop: on `chResults` or on `chError`. -/
inductive FetchMsg where
  | results (results : Option (List String))
  | err (err : Option GoError)
  deriving DecidableEq

/-- The goroutine `results, err := getList(ctx, client, url); chResults <- results;
chError <- err`, as its list of sends (`none` when `getList` panics). -/
def fetchGoroutine (client : String → HttpOutcome) (url : String) : Option (List FetchMsg) :=
  (getList (client url)).map fun r => [FetchMsg.results r.1, FetchMsg.err r.2]

/-- The goroutines started for a list of URLs. -/
def spawnFetches (client : String → HttpOutcome) : List String → Option (List (List FetchMsg))
  | [] => some []
  | url :: urls =>
    match fetchGoroutine client url, spawnFetches client urls with
    | some g, some gs => some (g :: gs)
    | _, _ => none

/-- The URLs fetched for the enabled categories: the three `if block... { go func ... }`
statements, in source order. -/
def enabledURLs (blockMalicious blockAds blockSurveillance : Bool)
    (malicious ads surveillance : String) : List String :=
  (if blockMalicious then [malicious] else []) ++
  (if blockAds then [ads] else []) ++
  (if blockSurveillance then [surveillance] else [])

/-- State of the aggregation loop. -/
structure AggState where
  uniqueResults : List String
  errs : List GoError
  listsLeftToFetch : Nat

/-- The statement `uniqueResults[key] = struct{}{}`. -/
def setAdd (uniqueResults : List String) (key : String) : List String :=
  List.insert key uniqueResults

/-- The statement `delete(uniqueResults, key)`. -/
def setDelete (uniqueResults : List String) (key : String) : List String :=
  uniqueResults.filter (fun k => k ≠ key)

/-- The loop `for _, result := range results { uniqueResults[result] = struct{}{} }`. -/
def addResults (uniqueResults : List String) (results : Option (List String)) : List String :=
  (results.getD []).foldl setAdd uniqueResults

/-- The body of the `select` statement of the aggregation loop (lines 259-269, 323-333). -/
def aggHandle (s : AggState) : FetchMsg → AggState
  | .results results => { s with uniqueResults := addResults s.uniqueResults results }
  | .err err =>
    { s with
      listsLeftToFetch := s.listsLeftToFetch - 1
      errs := match err with
        | some e => s.errs ++ [e]
        | none => s.errs }

/-- The loop `for listsLeftToFetch > 0 { select { ... } }` over the received messages. -/
def aggLoop (received : List FetchMsg) (s : AggState) : Option AggState :=
  recvLoop AggState.listsLeftToFetch aggHandle received s

/-- The condition `blockedHostname == allowedHostname ||
strings.HasSuffix(blockedHostname, "."+allowedHostname)`. -/
def allowMatches (blockedHostname allowedHostname : String) : Bool :=
  decide (blockedHostname = allowedHostname ∨
    ("." ++ allowedHostname).toList <:+ blockedHostname.toList)

/-- The inner loop over `allowedHostnames` that computes the flag `allowed`. -/
def isAllowed (blockedHostname : String) (allowedHostnames : List String) : Bool :=
  allowedHostnames.foldl
    (fun allowed allowedHostname =>
      if allowMatches blockedHostname allowedHostname then true else allowed)
    false

/-- The loop over `blockedHostnames` (lines 271-282). -/
def addBlockedHostnames (uniqueResults blockedHostnames allowedHostnames : List String) :
    List String :=
  blockedHostnames.foldl
    (fun u blockedHostname =>
      if isAllowed blockedHostname allowedHostnames then u else setAdd u blockedHostname)
    uniqueResults

/-- The loop `for _, allowedHostname := range allowedHostnames { delete(...) }`. -/
def removeAllowed (uniqueResults allowedHostnames : List String) : List String :=
  allowedHostnames.foldl setDelete uniqueResults

/-- The rendering of one blocked hostname. -/
def hostnameLine (result : String) : String :=
  "  local-zone: \"" ++ result ++ "\" static"

/-- The rendering of one blocked IP. -/
def ipLine (result : String) : String :=
  "  private-address: " ++ result

/-- The number of goroutines started by the three `if` statements. -/
def countEnabled (blockMalicious blockAds blockSurveillance : Bool) : Nat :=
  (if blockMalicious then 1 else 0) + (if blockAds then 1 else 0) +
    (if blockSurveillance then 1 else 0)

/-- The function `buildBlockedHostnames`, from the point where its goroutines are started:
`received` is the sequence of messages its `select` loop receives and `rangeOrder` the order
in which the final `range` visits the map. -/
def buildBlockedHostnames (blockMalicious blockAds blockSurveillance : Bool)
    (blockedHostnames allowedHostnames : List String)
    (received : List FetchMsg) (rangeOrder : List String → List String) :
    Option (List String × List GoError) :=
  (aggLoop received
    { uniqueResults := [], errs := [],
      listsLeftToFetch := countEnabled blockMalicious blockAds blockSurveillance }).map
  fun s =>
    let uniqueResults := addBlockedHostnames s.uniqueResults blockedHostnames allowedHostnames
    let uniqueResults := removeAllowed uniqueResults allowedHostnames
    ((rangeOrder uniqueResults).map hostnameLine, s.errs)

/-- The function `buildBlockedIPs`, with the same conventions. -/
def buildBlockedIPs (blockMalicious blockAds blockSurveillance : Bool)
    (blockedIPs : List String)
    (received : List FetchMsg) (rangeOrder : List String → List String) :
    Option (List String × List GoError) :=
  (aggLoop received
    { uniqueResults := [], errs := [],
      listsLeftToFetch := countEnabled blockMalicious blockAds blockSurveillance }).map
  fun s =>
    let uniqueResults := blockedIPs.foldl setAdd s.uniqueResults
    ((rangeOrder uniqueResults).map ipLine, s.errs)

/-- The URLs of the hostname lists of the enabled categories. -/
def hostnameURLs (urls : BlockListURLs) (blockMalicious blockAds blockSurveillance : Bool) :
    List String :=
  enabledURLs blockMalicious blockAds blockSurveillance urls.maliciousBlockListHostnamesURL
    urls.adsBlockListHostnamesURL urls.surveillanceBlockListHostnamesURL

/-- The URLs of the IP lists of the enabled categories. -/
def ipURLs (urls : BlockListURLs) (blockMalicious blockAds blockSurveillance : Bool) :
    List String :=
  enabledURLs blockMalicious blockAds blockSurveillance urls.maliciousBlockListIPsURL
    urls.adsBlockListIPsURL urls.surveillanceBlockListIPsURL

/-- A complete run of `buildBlockedHostnames` returning `out = (lines, errs)`: the goroutines
of the enabled categories are started, the loop receives some interleaving of their sends,
and the final `range` visits the map in some order. -/
def HostnamesRun (client : String → HttpOutcome) (urls : BlockListURLs)
    (blockMalicious blockAds blockSurveillance : Bool)
    (blockedHostnames allowedHostnames : List String)
    (out : List String × List GoError) : Prop :=
  ∃ goroutines received rangeOrder,
    spawnFetches client (hostnameURLs urls blockMalicious blockAds blockSurveillance)
      = some goroutines ∧
    Interleaving goroutines received ∧ IsRangeOrder rangeOrder ∧
    buildBlockedHostnames blockMalicious blockAds blockSurveillance blockedHostnames
      allowedHostnames received rangeOrder = some out

/-- A complete run of `buildBlockedIPs` returning `out = (lines, errs)`. -/
def IPsRun (client : String → HttpOutcome) (urls : BlockListURLs)
    (blockMalicious blockAds blockSurveillance : Bool) (blockedIPs : List String)
    (out : List String × List GoError) : Prop :=
  ∃ goroutines received rangeOrder,
    spawnFetches client (ipURLs urls blockMalicious blockAds blockSurveillance)
      = some goroutines ∧
    Interleaving goroutines received ∧ IsRangeOrder rangeOrder ∧
    buildBlockedIPs blockMalicious blockAds blockSurveillance blockedIPs received rangeOrder
      = some out

/-- The function `buildBlockedHostnames` always returns: `getList` panics for none of the
fetched URLs, and for every arrival order of the sends and every iteration order of the map
the aggregation loop terminates and the function returns a result. -/
def HostnamesReturns (client : String → HttpOutcome) (urls : BlockListURLs)
    (blockMalicious blockAds blockSurveillance : Bool)
    (blockedHostnames allowedHostnames : List String) : Prop :=
  ∃ goroutines,
    spawnFetches client (hostnameURLs urls blockMalicious blockAds blockSurveillance)
      = some goroutines ∧
    ∀ received rangeOrder, Interleaving goroutines received →
      ∃ out, buildBlockedHostnames blockMalicious blockAds blockSurveillance blockedHostnames
        allowedHostnames received rangeOrder = some out

/-- The function `buildBlockedIPs` always returns, in the same sense. -/
def IPsReturns (client : String → HttpOutcome) (urls : BlockListURLs)
    (blockMalicious blockAds blockSurveillance : Bool) (blockedIPs : List String) : Prop :=
  ∃ goroutines,
    spawnFetches client (ipURLs urls blockMalicious blockAds blockSurveillance)
      = some goroutines ∧
    ∀ received rangeOrder, Interleaving goroutines received →
      ∃ out, buildBlockedIPs blockMalicious blockAds blockSurveillance blockedIPs received
        rangeOrder = some out

/-! ## `BuildBlocked` -/

/-- A message received by the loop of `BuildBlocked`: on `chHostnames`, `chIPs` or
`chErrors`. -/
inductive BuildMsg where
  | hostnames (lines : List String)
  | ips (lines : List String)
  | errors (routineErrs : List GoError)
  deriving DecidableEq

/-- State of the loop of `BuildBlocked`. -/
structure BuildState where
  hostnamesLines : List String
  ipsLines : List String
  errs : List GoError
  n : Nat

/-- The body of the `select` statement of `BuildBlocked` (lines 166-174). -/
def buildHandle (s : BuildState) : BuildMsg → BuildState
  | .hostnames lines => { s with hostnamesLines := s.hostnamesLines ++ lines }
  | .ips lines => { s with ipsLines := s.ipsLines ++ lines }
  | .errors routineErrs => { s with errs := s.errs ++ routineErrs, n := s.n - 1 }

/-- The method `BuildBlocked`, from the point where its two goroutines are started:
`received` is the sequence of messages its `select` loop receives. -/
def BuildBlocked (received : List BuildMsg) :
    Option (List String × List String × List GoError) :=
  (recvLoop BuildState.n buildHandle received
    { hostnamesLines := [], ipsLines := [], errs := [], n := 2 }).map
  fun s => (sortSlice s.hostnamesLines, sortSlice s.ipsLines, s.errs)

/-- A complete run of `BuildBlocked` returning `out = (hostnamesLines, ipsLines, errs)`:
each of the two goroutines runs its aggregation and sends its lines and then its errors. -/
def BuildBlockedRun (client : String → HttpOutcome) (urls : BlockListURLs)
    (blockMalicious blockAds blockSurveillance : Bool)
    (blockedHostnames blockedIPs allowedHostnames : List String)
    (out : List String × List String × List GoError) : Prop :=
  ∃ h i received,
    HostnamesRun client urls blockMalicious blockAds blockSurveillance blockedHostnames
      allowedHostnames h ∧
    IPsRun client urls blockMalicious blockAds blockSurveillance blockedIPs i ∧
    Interleaving [[BuildMsg.hostnames h.1, BuildMsg.errors h.2],
      [BuildMsg.ips i.1, BuildMsg.errors i.2]] received ∧
    BuildBlocked received = some out

/-- The method `BuildBlocked` always returns: both aggregations always return, and for
every arrival order of the sends of its two goroutines its loop terminates and the method
returns a result. -/
def BuildBlockedReturns (client : String → HttpOutcome) (urls : BlockListURLs)
    (blockMalicious blockAds blockSurveillance : Bool)
    (blockedHostnames blockedIPs allowedHostnames : List String) : Prop :=
  HostnamesReturns client urls blockMalicious blockAds blockSurveillance blockedHostnames
    allowedHostnames ∧
  IPsReturns client urls blockMalicious blockAds blockSurveillance blockedIPs ∧
  ∀ (h i : List String × List GoError) (received : List BuildMsg),
    Interleaving [[BuildMsg.hostnames h.1, BuildMsg.errors h.2],
      [BuildMsg.ips i.1, BuildMsg.errors i.2]] received →
    ∃ out, BuildBlocked received = some out

/-! ## `generateUnboundConf` -/

/-- The fields of `models.UnboundSettings` read by `generateUnboundConf` (the type is
declared outside the source files at hand; the numeric fields are unsigned). -/
structure UnboundSettings where
  Providers : List String
  ListeningPort : Nat
  Caching : Bool
  IPv4 : Bool
  IPv6 : Bool
  VerbosityLevel : Nat
  ValidationLogLevel : Nat

/-- The fields of the provider data read by `generateUnboundConf`: the addresses, each as
the text returned by `IP.String()`, and the host name. -/
structure ProviderData where
  IPs : List String
  Host : String

/-- Package-level constants and helpers that are declared outside the source files at
hand. -/
structure Constants where
  cacertsFilename : String
  rootHints : String
  rootKey : String
  LibreDNS : String
  /-- The library function `filepath.Join` on two path elements. -/
  filepathJoin : String → String → String
  /-- The first result of `GetProviderData`. -/
  GetProviderData : String → ProviderData

/-- The map literal `serverSection` (lines 55-91), as its entries in source order. -/
def serverSection (c : Constants) (settings : UnboundSettings) (unboundDir username : String) :
    List (String × String) :=
  let ipv4 := if settings.IPv4 then "yes" else "no"
  let ipv6 := if settings.IPv6 then "yes" else "no"
  [ ("verbosity", toString settings.VerbosityLevel),
    ("val-log-level", toString settings.ValidationLogLevel),
    ("use-syslog", "no"),
    ("num-threads", "2"),
    ("prefetch", "yes"),
    ("prefetch-key", "yes"),
    ("key-cache-size", "32m"),
    ("key-cache-slabs", "4"),
    ("msg-cache-size", "8m"),
    ("msg-cache-slabs", "4"),
    ("rrset-cache-size", "8m"),
    ("rrset-cache-slabs", "4"),
    ("cache-min-ttl", "3600"),
    ("cache-max-ttl", "9000"),
    ("rrset-roundrobin", "yes"),
    ("hide-identity", "yes"),
    ("hide-version", "yes"),
    ("tls-cert-bundle", "\"" ++ c.filepathJoin unboundDir c.cacertsFilename ++ "\""),
    ("root-hints", "\"" ++ c.filepathJoin unboundDir c.rootHints ++ "\""),
    ("trust-anchor-file", "\"" ++ c.filepathJoin unboundDir c.rootKey ++ "\""),
    ("harden-below-nxdomain", "yes"),
    ("harden-referral-path", "yes"),
    ("harden-algo-downgrade", "yes"),
    ("do-ip4", ipv4),
    ("do-ip6", ipv6),
    ("interface", "0.0.0.0"),
    ("port", toString settings.ListeningPort),
    ("username", "\"" ++ username ++ "\""),
    ("include", "include.conf") ]

/-- The statement `delete(m, key)` on a `map[string]string`. -/
def deleteKey (m : List (String × String)) (key : String) : List (String × String) :=
  m.filter (fun kv => kv.1 ≠ key)

/-- The loop over `settings.Providers` that deletes `trust-anchor-file` for LibreDNS
(lines 93-97), applied to the server section. -/
def serverOptions (c : Constants) (settings : UnboundSettings) (unboundDir username : String) :
    List (String × String) :=
  settings.Providers.foldl
    (fun sect provider =>
      if provider = c.LibreDNS then deleteKey sect "trust-anchor-file" else sect)
    (serverSection c settings unboundDir username)

/-- The rendering `"  " + k + ": " + v` of one option. -/
def optionLine (kv : String × String) : String :=
  "  " ++ kv.1 ++ ": " ++ kv.2

/-- The sorted lines of the `server:` block (lines 101-109); `rangeOrder` is the order in
which `range serverSection` visits the map. -/
def serverLines (c : Constants) (settings : UnboundSettings) (unboundDir username : String)
    (rangeOrder : List (String × String) → List (String × String)) : List String :=
  sortSlice ((rangeOrder (serverOptions c settings unboundDir username)).map optionLine)

/-- The map `forwardZoneSection` (lines 116-124). -/
def forwardZoneSection (settings : UnboundSettings) : List (String × String) :=
  [ ("name", "\".\""),
    ("forward-tls-upstream", "yes"),
    ("forward-no-cache", if settings.Caching then "no" else "yes") ]

/-- The rendering `fmt.Sprintf("  forward-addr: %s@853#%s", IP.String(), providerData.Host)`. -/
def forwardAddrLine (ip host : String) : String :=
  "  forward-addr: " ++ ip ++ "@853#" ++ host

/-- The lines of the `forward-zone:` block (lines 125-140). -/
def forwardZoneLines (c : Constants) (settings : UnboundSettings)
    (rangeOrder : List (String × String) → List (String × String)) : List String :=
  settings.Providers.foldl
    (fun lines provider =>
      let providerData := c.GetProviderData provider
      providerData.IPs.foldl
        (fun lines ip => lines ++ [forwardAddrLine ip providerData.Host]) lines)
    (sortSlice ((rangeOrder (forwardZoneSection settings)).map optionLine))

/-- The function `generateUnboundConf`; `rangeServer` and `rangeForward` are the orders in
which the two `range` loops visit their maps. -/
def generateUnboundConf (c : Constants) (settings : UnboundSettings)
    (hostnamesLines ipsLines : List String) (unboundDir username : String)
    (rangeServer rangeForward : List (String × String) → List (String × String)) :
    List String :=
  ["server:"] ++ serverLines c settings unboundDir username rangeServer ++ hostnamesLines ++
    ipsLines ++ ["forward-zone:"] ++ forwardZoneLines c settings rangeForward

/-! ## Notions used to state and prove the properties -/

/-- A goroutine that sends at most one data message and then its completion message. -/
def Pending {α : Type} (isDone : α → Bool) (q : List α) : Prop :=
  q = [] ∨ (∃ m, q = [m] ∧ isDone m = true) ∨
    (∃ m m', q = [m, m'] ∧ isDone m = false ∧ isDone m' = true)

/-- Whether a message of the aggregation loop is a completion signal (sent on `chError`). -/
def FetchMsg.isErr : FetchMsg → Bool
  | .results _ => false
  | .err _ => true

/-- The non-nil error carried by a message, if any. -/
def FetchMsg.error? : FetchMsg → Option GoError
  | .results _ => none
  | .err e => e

/-- Whether a message of the loop of `BuildBlocked` is a completion signal (`chErrors`). -/
def BuildMsg.isErrors : BuildMsg → Bool
  | .errors _ => true
  | _ => false

/-- The lines carried by a message on `chHostnames`. -/
def BuildMsg.hostnames? : BuildMsg → Option (List String)
  | .hostnames lines => some lines
  | _ => none

/-- The lines carried by a message on `chIPs`. -/
def BuildMsg.ips? : BuildMsg → Option (List String)
  | .ips lines => some lines
  | _ => none

/-- The errors carried by a message on `chErrors`. -/
def BuildMsg.errors? : BuildMsg → Option (List GoError)
  | .errors es => some es
  | _ => none

/-- The hostname or IP `h` is an entry of a list that `getList` returned without error for
one of the URLs. -/
def Fetched (client : String → HttpOutcome) (urls : List String) (h : String) : Prop :=
  ∃ url ∈ urls, ∃ results, getList (client url) = some (some results, none) ∧ h ∈ results

/-- The errors returned by `getList` for the URLs, one for each failed fetch. -/
def fetchErrors (client : String → HttpOutcome) (urls : List String) : List GoError :=
  urls.filterMap fun url => (getList (client url)).bind Prod.snd

/-- Whether `getList` returns without error for the URL. -/
def fetchOK (client : String → HttpOutcome) (url : String) : Bool :=
  ((getList (client url)).bind Prod.snd).isNone

/-- The hostnames blocked in the end: fetched or user-blocked without an allow match, and
not allow-listed themselves. -/
def FinalHostname (client : String → HttpOutcome) (fetchURLs : List String)
    (blockedHostnames allowedHostnames : List String) (x : String) : Prop :=
  (Fetched client fetchURLs x ∨ (x ∈ blockedHostnames ∧ isAllowed x allowedHostnames = false)) ∧
    x ∉ allowedHostnames

/-- The lines of the options appear in `lines` in the order of the option keys: whenever the
key of one option is below the key of another, its line comes first. -/
def InKeyOrder (options : List (String × String)) (lines : List String) : Prop :=
  ∀ o₁ ∈ options, ∀ o₂ ∈ options, o₁.1 < o₂.1 →
    lines.indexOf (optionLine o₁) < lines.indexOf (optionLine o₂)

/-- The characters of an option line that precede its value: `"  " + k + ": "`. -/
def optionPrefix (k : String) : List Char :=
  ("  " ++ k ++ ": ").toList

/-- Two option keys whose line prefixes are not a prefix of one another. -/
def PrefixFree (k₁ k₂ : String) : Prop :=
  ¬ optionPrefix k₁ <+: optionPrefix k₂ ∧ ¬ optionPrefix k₂ <+: optionPrefix k₁

instance decidablePrefixFree (k₁ k₂ : String) : Decidable (PrefixFree k₁ k₂) := by
  unfold PrefixFree
  infer_instance

/-- The keys of the map literal `serverSection`, in source order. -/
def serverKeys : List String :=
  [ "verbosity", "val-log-level", "use-syslog", "num-threads", "prefetch", "prefetch-key",
    "key-cache-size", "key-cache-slabs", "msg-cache-size", "msg-cache-slabs",
    "rrset-cache-size", "rrset-cache-slabs", "cache-min-ttl", "cache-max-ttl",
    "rrset-roundrobin", "hide-identity", "hide-version", "tls-cert-bundle", "root-hints",
    "trust-anchor-file", "harden-below-nxdomain", "harden-referral-path",
    "harden-algo-downgrade", "do-ip4", "do-ip6", "interface", "port", "username", "include" ]

/-- Removes the message `m` from the head of the first goroutine whose next send is `m`. -/
def popSend {α : Type} [DecidableEq α] (m : α) : List (List α) → Option (List (List α))
  | [] => none
  | [] :: qs => (popSend m qs).map ([] :: ·)
  | (x :: rest) :: qs =>
    if x = m then some (rest :: qs) else (popSend m qs).map ((x :: rest) :: ·)

/-- A decision procedure that accepts only interleavings of the sends of `qs`. -/
def checkInterleaving {α : Type} [DecidableEq α] : List (List α) → List α → Bool
  | qs, [] => qs.all List.isEmpty
  | qs, m :: t =>
    match popSend m qs with
    | some qs' => checkInterleaving qs' t
    | none => false

/-! ## Sample inputs and their results -/

/-- Sample constants: paths are joined with a slash. -/
def sampleConstants : Constants :=
  { cacertsFilename := "ca-certificates.crt", rootHints := "root.hints", rootKey := "root.key",
    LibreDNS := "libredns", filepathJoin := fun a b => a ++ "/" ++ b,
    GetProviderData := fun _ => { IPs := ["1.1.1.1", "1.0.0.1"], Host := "cloudflare-dns.com" } }

/-- Sample settings. -/
def sampleSettings : UnboundSettings :=
  { Providers := ["cloudflare"], ListeningPort := 53, Caching := true, IPv4 := true,
    IPv6 := false, VerbosityLevel := 1, ValidationLogLevel := 0 }

/-- Sample URL constants. -/
def sampleURLs : BlockListURLs :=
  { maliciousBlockListHostnamesURL := "https://lists.example/malicious-hostnames.updated"
    adsBlockListHostnamesURL := "https://lists.example/ads-hostnames.updated"
    surveillanceBlockListHostnamesURL := "https://lists.example/surveillance-hostnames.updated"
    maliciousBlockListIPsURL := "https://lists.example/malicious-ips.updated"
    adsBlockListIPsURL := "https://lists.example/ads-ips.updated"
    surveillanceBlockListIPsURL := "https://lists.example/surveillance-ips.updated" }

/-- A sample network: the malicious and the ads hostname lists overlap, the surveillance
lists answer 404, the malicious IP list is served, every other request fails. -/
def sampleClient (url : String) : HttpOutcome :=
  if url = "https://lists.example/malicious-hostnames.updated" then
    okResponse "ads.example.com\nevil.example.org\n"
  else if url = "https://lists.example/ads-hostnames.updated" then
    okResponse "tracker.example.net\nads.example.com\nexample.com"
  else if url = "https://lists.example/malicious-ips.updated" then
    okResponse "10.0.0.1\n192.0.2.0/24"
  else if url = "https://lists.example/surveillance-hostnames.updated" then
    .response { statusCode := 404, status := "404 Not Found", body := .ok "", close := none }
  else .transportError (.new "connection refused")

/-- Sample user block list. -/
def sampleBlocked : List String := ["ads.example.com", "sub.example.com", "mine.test"]

/-- Sample user allow list. -/
def sampleAllowed : List String := ["example.com"]

/-- Sample user-blocked IPs. -/
def sampleBlockedIPs : List String := ["1.2.3.4", "10.0.0.1"]

/-- The error `getList` returns for the 404 response of the sample network. -/
def sample404 : GoError :=
  .wrap ErrBadStatusCode "bad HTTP status code: 404 404 Not Found"

/-- The sends of the three hostname goroutines on the sample network. -/
def sampleHostnameGoroutines : List (List FetchMsg) :=
  [ [.results (some ["ads.example.com", "evil.example.org"]), .err none],
    [.results (some ["tracker.example.net", "ads.example.com", "example.com"]), .err none],
    [.results none, .err (some sample404)] ]

/-- The sends of the three IP goroutines on the sample network. -/
def sampleIPGoroutines : List (List FetchMsg) :=
  [ [.results (some ["10.0.0.1", "192.0.2.0/24"]), .err none],
    [.results none, .err (some (.new "connection refused"))],
    [.results none, .err (some (.new "connection refused"))] ]

/-- A second arrival order of the sends of the sample hostname goroutines: the results of
the third, then of the second goroutine arrive before those of the first. -/
def sampleHostnameReceived2 : List FetchMsg :=
  [ .results none,
    .results (some ["tracker.example.net", "ads.example.com", "example.com"]),
    .err none,
    .results (some ["ads.example.com", "evil.example.org"]),
    .err (some sample404),
    .err none ]

/-- The result of `buildBlockedHostnames` on the sample inputs when the goroutines are
served one after the other and the map is visited in insertion order. -/
def sampleHostnamesOut : List String × List GoError :=
  (["  local-zone: \"mine.test\" static", "  local-zone: \"tracker.example.net\" static",
    "  local-zone: \"evil.example.org\" static", "  local-zone: \"ads.example.com\" static"],
   [sample404])

/-- The result of `buildBlockedHostnames` on the sample inputs for the second arrival order
and the reverse iteration order. -/
def sampleHostnamesOut2 : List String × List GoError :=
  (["  local-zone: \"tracker.example.net\" static", "  local-zone: \"ads.example.com\" static",
    "  local-zone: \"evil.example.org\" static", "  local-zone: \"mine.test\" static"],
   [sample404])

/-- The result of `buildBlockedIPs` on the sample inputs. -/
def sampleIPsOut : List String × List GoError :=
  (["  private-address: 1.2.3.4", "  private-address: 192.0.2.0/24",
    "  private-address: 10.0.0.1"],
   [.new "connection refused", .new "connection refused"])

/-- The result of `BuildBlocked` on the sample inputs when the hostname goroutine is served
first. -/
def sampleBuildOut : List String × List String × List GoError :=
  (["  local-zone: \"ads.example.com\" static", "  local-zone: \"evil.example.org\" static",
    "  local-zone: \"mine.test\" static", "  local-zone: \"tracker.example.net\" static"],
   ["  private-address: 1.2.3.4", "  private-address: 10.0.0.1",
    "  private-address: 192.0.2.0/24"],
   [sample404, .new "connection refused", .new "connection refused"])

/-- The result of `BuildBlocked` on the sample inputs when the IP goroutine is served
first. -/
def sampleBuildOut2 : List String × List String × List GoError :=
  (["  local-zone: \"ads.example.com\" static", "  local-zone: \"evil.example.org\" static",
    "  local-zone: \"mine.test\" static", "  local-zone: \"tracker.example.net\" static"],
   ["  private-address: 1.2.3.4", "  private-address: 10.0.0.1",
    "  private-address: 192.0.2.0/24"],
   [.new "connection refused", .new "connection refused", sample404])

/-! ## Notions used to state the properties of `getList` -/

/-- The test `len(results[i]) == 0` of the removal loop. -/
def isEmptyLine (s : String) : Bool :=
  decide (s.length = 0)

/-- The state in which the removal loop of `getList` starts on the slice `results`. -/
def loopStart (results : List String) : LoopState :=
  { results := results, last := (results.length : Int) - 1 }

/-- A response with status code 200 whose body is read and closed without error. -/
def successResponse (status content : String) : HttpOutcome :=
  .response { statusCode := 200, status := status, body := .ok content, close := none }

/-! ## Notions used to state the properties of `generateUnboundConf` -/

/-- The forward-address lines: one for each configured provider, in configured order, and
each of its addresses, in order. -/
def forwardAddrLines (c : Constants) (settings : UnboundSettings) : List String :=
  settings.Providers.flatMap fun provider =>
    (c.GetProviderData provider).IPs.map fun ip =>
      "  forward-addr: " ++ ip ++ "@853#" ++ (c.GetProviderData provider).Host

/-- A response with status code 404. -/
def sampleNotFound : Response :=
  { statusCode := 404, status := "404 Not Found", body := .ok "", close := none }

/-- The sample settings with LibreDNS as second provider. -/
def sampleLibreSettings : UnboundSettings :=
  { sampleSettings with Providers := ["cloudflare", "libredns"] }

/-- A response with status code 200 whose body cannot be read: the read fails with the
error value `ErrBadStatusCode`. -/
def sampleReadFailure : Response :=
  { statusCode := 200, status := "200 OK", body := .error ErrBadStatusCode, close := none }

end Dns

namespace Dns

/-! ## `getList` never panics -/

theorem removeEmptyIter_inv (i n : Nat) (st : LoopState) (hlen : st.results.length = n)
    (hi : i < n) (hlo : (n : Int) - 1 - i ≤ st.last) (hhi : st.last ≤ (n : Int) - 1) :
    ∃ st', removeEmptyIter i st = some st' ∧ st'.results.length = n ∧
      (n : Int) - 1 - (i + 1) ≤ st'.last ∧ st'.last ≤ (n : Int) - 1 := by
  have h1 : st.results[i]? = some st.results[i] := List.getElem?_eq_getElem (by omega)
  have h0 : ¬ st.last < 0 := by omega
  have h2 : st.last.toNat < st.results.length := by omega
  have h3 : st.results[st.last.toNat]? = some st.results[st.last.toNat] :=
    List.getElem?_eq_getElem h2
  unfold removeEmptyIter
  rw [h1]
  by_cases he : st.results[i].length = 0
  · simp only [he, if_true, h0, if_false, h3]
    refine ⟨_, rfl, ?_, ?_, ?_⟩
    · simpa using hlen
    · show (n : Int) - 1 - (i + 1) ≤ st.last - 1
      omega
    · show st.last - 1 ≤ (n : Int) - 1
      omega
  · simp only [he, if_false]
    exact ⟨st, rfl, hlen, by omega, hhi⟩

theorem removeEmptyFrom_inv (k : Nat) : ∀ (i n : Nat) (st : LoopState),
    st.results.length = n → i + k = n → (n : Int) - 1 - i ≤ st.last → st.last ≤ (n : Int) - 1 →
    ∃ st', removeEmptyFrom i k st = some st' ∧ st'.results.length = n ∧
      -1 ≤ st'.last ∧ st'.last ≤ (n : Int) - 1 := by
  induction k with
  | zero =>
    intro i n st hlen hik hlo hhi
    exact ⟨st, rfl, hlen, by omega, hhi⟩
  | succ k ih =>
    intro i n st hlen hik hlo hhi
    obtain ⟨st1, h1, hlen1, hlo1, hhi1⟩ := removeEmptyIter_inv i n st hlen (by omega) hlo hhi
    obtain ⟨st2, h2, hlen2, hlo2, hhi2⟩ :=
      ih (i + 1) n st1 hlen1 (by omega) (by push_cast; omega) hhi1
    exact ⟨st2, by simp [removeEmptyFrom, h1, h2], hlen2, hlo2, hhi2⟩

theorem parseList_total (content : String) : ∃ r, parseList content = some r := by
  obtain ⟨st, h, hlen, hlo, hhi⟩ :=
    removeEmptyFrom_inv (splitNewline content).length 0 (splitNewline content).length
      { results := splitNewline content, last := ((splitNewline content).length : Int) - 1 }
      rfl (by omega) (by simp) (by simp)
  have hs : 0 ≤ st.last + 1 ∧ st.last + 1 ≤ (st.results.length : Int) := by omega
  simp [parseList, removeEmptyLoop, h, sliceTo, hs]

theorem getList_total (o : HttpOutcome) : ∃ r, getList o = some r := by
  cases o with
  | requestError e => exact ⟨_, rfl⟩
  | transportError e => exact ⟨_, rfl⟩
  | response r =>
    unfold getList
    simp only
    split
    · exact ⟨_, rfl⟩
    · split
      · exact ⟨_, rfl⟩
      · split
        · exact ⟨_, rfl⟩
        · exact parseList_total _

/-- When `getList` returns an error its result slice is `nil`. -/
theorem getList_err_results (o : HttpOutcome) (r : Option (List String)) (e : GoError)
    (h : getList o = some (r, some e)) : r = none := by
  cases o with
  | requestError e' => simp [getList] at h; exact h.1.symm
  | transportError e' => simp [getList] at h; exact h.1.symm
  | response resp =>
    unfold getList at h
    simp only at h
    split at h
    · simp at h; exact h.1.symm
    · split at h
      · simp at h; exact h.1.symm
      · split at h
        · simp at h; exact h.1.symm
        · simp only [parseList, Option.bind_eq_some, Option.map_eq_some'] at h
          obtain ⟨st, _, results, _, h3⟩ := h
          split at h3 <;> simp at h3

/-! ## Auxiliary results on the aggregation -/

theorem Interleaving.perm_flatten {α : Type} {qs : List (List α)} {t : List α}
    (h : Interleaving qs t) : t.Perm qs.flatten := by
  induction h with
  | done qs h =>
    have : qs.flatten = [] := by
      simp only [List.flatten_eq_nil_iff]
      exact h
    rw [this]
  | recv pre post m rest t _ ih =>
    simp only [List.flatten_append, List.flatten_cons, List.cons_append] at ih ⊢
    exact (List.Perm.cons m ih).trans List.perm_middle.symm

theorem recvLoop_interleaving {α σ : Type} (counter : σ → Nat) (handle : σ → α → σ)
    (isDone : α → Bool)
    (hc : ∀ s m, counter (handle s m) = if isDone m then counter s - 1 else counter s)
    {qs : List (List α)} {t : List α} (h : Interleaving qs t) :
    ∀ s, (∀ q ∈ qs, Pending isDone q) → counter s = (qs.flatten.filter isDone).length →
      recvLoop counter handle t s = some (t.foldl handle s) := by
  induction h with
  | done qs h =>
    intro s _ hcount
    have : qs.flatten = [] := by
      simp only [List.flatten_eq_nil_iff]
      exact h
    simp [this] at hcount
    simp [recvLoop, hcount]
  | recv pre post m rest t _ ih =>
    intro s hwf hcount
    have hq := hwf (m :: rest) (by simp)
    have hwf' : ∀ q ∈ pre ++ rest :: post, Pending isDone q := by
      intro q hq'
      simp only [List.mem_append, List.mem_cons] at hq'
      rcases hq' with hq' | hq' | hq'
      · exact hwf q (by simp [hq'])
      · subst hq'
        rcases hq with hq | ⟨m0, hq, _⟩ | ⟨m0, m1, hq, _, h1⟩
        · simp at hq
        · simp only [List.cons.injEq] at hq
          exact Or.inl hq.2
        · simp only [List.cons.injEq] at hq
          exact Or.inr (Or.inl ⟨m1, hq.2, h1⟩)
      · exact hwf q (by simp [hq'])
    simp only [List.flatten_append, List.flatten_cons, List.filter_append, List.length_append,
      List.cons_append, List.filter_cons] at hcount
    rcases hq with hq | ⟨m0, hq, h0⟩ | ⟨m0, m1, hq, h0, h1⟩
    · simp at hq
    · simp only [List.cons.injEq] at hq
      obtain ⟨rfl, rfl⟩ := hq
      simp only [h0, if_true, List.length_cons] at hcount
      have hne : counter s ≠ 0 := by omega
      simp only [recvLoop, hne, if_false, List.foldl_cons]
      apply ih _ hwf'
      rw [hc, h0]
      simp only [if_true, List.flatten_append, List.flatten_cons, List.filter_append,
        List.length_append, List.nil_append]
      simp only [List.filter_nil, List.length_nil, List.nil_append] at hcount
      omega
    · simp only [List.cons.injEq] at hq
      obtain ⟨rfl, rfl⟩ := hq
      simp [h0, h1] at hcount
      have hne : counter s ≠ 0 := by omega
      simp only [recvLoop, hne, if_false, List.foldl_cons]
      apply ih _ hwf'
      rw [hc, h0]
      simp only [List.flatten_append, List.flatten_cons, List.filter_append,
        List.length_append, List.cons_append, List.nil_append, List.filter_cons, h1, if_true,
        List.length_cons]
      simp at hcount ⊢
      omega

theorem mem_foldl_setAdd (l : List String) : ∀ (u : List String) (x : String),
    x ∈ l.foldl setAdd u ↔ x ∈ u ∨ x ∈ l := by
  induction l with
  | nil => intro u x; simp
  | cons a l ih =>
    intro u x
    simp only [List.foldl_cons, ih, setAdd, List.mem_insert_iff, List.mem_cons]
    tauto

theorem nodup_foldl_setAdd (l : List String) : ∀ (u : List String),
    u.Nodup → (l.foldl setAdd u).Nodup := by
  induction l with
  | nil => intro u h; simpa using h
  | cons a l ih =>
    intro u h
    simp only [List.foldl_cons]
    exact ih _ (List.Nodup.insert h)

theorem aggFold_listsLeft (s : AggState) (m : FetchMsg) :
    (aggHandle s m).listsLeftToFetch =
      if m.isErr then s.listsLeftToFetch - 1 else s.listsLeftToFetch := by
  cases m <;> rfl

theorem aggFold_mem (t : List FetchMsg) : ∀ (s : AggState) (x : String),
    x ∈ (t.foldl aggHandle s).uniqueResults ↔
      x ∈ s.uniqueResults ∨ ∃ rs, FetchMsg.results (some rs) ∈ t ∧ x ∈ rs := by
  induction t with
  | nil => intro s x; simp
  | cons m t ih =>
    intro s x
    rw [List.foldl_cons, ih]
    cases m with
    | results r =>
      cases r with
      | none => simp [aggHandle, addResults]
      | some rs =>
        simp only [aggHandle, addResults, Option.getD_some, mem_foldl_setAdd, List.mem_cons,
          FetchMsg.results.injEq, Option.some.injEq]
        constructor
        · rintro ((h | h) | ⟨rs', h, hx⟩)
          · exact Or.inl h
          · exact Or.inr ⟨rs, Or.inl rfl, h⟩
          · exact Or.inr ⟨rs', Or.inr h, hx⟩
        · rintro (h | ⟨rs', h | h, hx⟩)
          · exact Or.inl (Or.inl h)
          · subst h; exact Or.inl (Or.inr hx)
          · exact Or.inr ⟨rs', h, hx⟩
    | err e => simp [aggHandle]

theorem aggFold_nodup (t : List FetchMsg) : ∀ (s : AggState),
    s.uniqueResults.Nodup → (t.foldl aggHandle s).uniqueResults.Nodup := by
  induction t with
  | nil => intro s h; simpa using h
  | cons m t ih =>
    intro s h
    rw [List.foldl_cons]
    apply ih
    cases m with
    | results r => exact nodup_foldl_setAdd _ _ h
    | err e => exact h

theorem aggFold_errs (t : List FetchMsg) : ∀ (s : AggState),
    (t.foldl aggHandle s).errs = s.errs ++ t.filterMap FetchMsg.error? := by
  induction t with
  | nil => intro s; simp
  | cons m t ih =>
    intro s
    rw [List.foldl_cons, ih]
    cases m with
    | results r => simp [aggHandle, FetchMsg.error?]
    | err e =>
      cases e with
      | none => simp [aggHandle, FetchMsg.error?]
      | some e => simp [aggHandle, FetchMsg.error?]

theorem spawnFetches_total (client : String → HttpOutcome) (urls : List String) :
    ∃ gs, spawnFetches client urls = some gs := by
  induction urls with
  | nil => exact ⟨[], rfl⟩
  | cons url urls ih =>
    obtain ⟨gs, hgs⟩ := ih
    obtain ⟨r, hr⟩ := getList_total (client url)
    exact ⟨[FetchMsg.results r.1, FetchMsg.err r.2] :: gs,
      by simp [spawnFetches, fetchGoroutine, hr, hgs]⟩

theorem spawnFetches_spec (client : String → HttpOutcome) (urls : List String) :
    ∀ gs, spawnFetches client urls = some gs →
      (∀ g ∈ gs, Pending FetchMsg.isErr g) ∧
      (gs.flatten.filter FetchMsg.isErr).length = urls.length ∧
      (∀ rs x, (FetchMsg.results (some rs) ∈ gs.flatten ∧ x ∈ rs) → Fetched client urls x) ∧
      (∀ x, Fetched client urls x → ∃ rs, FetchMsg.results (some rs) ∈ gs.flatten ∧ x ∈ rs) ∧
      gs.flatten.filterMap FetchMsg.error? = fetchErrors client urls := by
  induction urls with
  | nil =>
    intro gs h
    simp only [spawnFetches, Option.some.injEq] at h
    subst h
    simp [Fetched, fetchErrors]
  | cons url urls ih =>
    intro gs h
    obtain ⟨gs', hgs'⟩ := spawnFetches_total client urls
    obtain ⟨⟨r1, r2⟩, hr⟩ := getList_total (client url)
    obtain ⟨ih1, ih2, ih3, ih4, ih5⟩ := ih gs' hgs'
    simp only [spawnFetches, fetchGoroutine, hr, hgs', Option.map_some', Option.some.injEq] at h
    subst h
    refine ⟨?_, ?_, ?_, ?_, ?_⟩
    · intro g hg
      simp only [List.mem_cons] at hg
      rcases hg with hg | hg
      · subst hg
        exact Or.inr (Or.inr ⟨_, _, rfl, rfl, rfl⟩)
      · exact ih1 g hg
    · simp only [List.flatten_cons, List.filter_append, List.length_append, ih2,
        List.length_cons]
      simp [FetchMsg.isErr]
      omega
    · rintro rs x ⟨hm, hx⟩
      simp only [List.flatten_cons, List.cons_append, List.nil_append, List.mem_cons,
        FetchMsg.results.injEq, reduceCtorEq, false_or] at hm
      rcases hm with hm | hm
      · subst hm
        cases r2 with
        | none => exact ⟨url, by simp, rs, hr, hx⟩
        | some e =>
          have := getList_err_results (client url) _ e hr
          simp at this
      · obtain ⟨u, hu, rs', h1, h2⟩ := ih3 rs x ⟨hm, hx⟩
        exact ⟨u, by simp [hu], rs', h1, h2⟩
    · rintro x ⟨u, hu, rs, h1, h2⟩
      simp only [List.mem_cons] at hu
      rcases hu with hu | hu
      · subst hu
        rw [hr] at h1
        simp only [Option.some.injEq, Prod.mk.injEq] at h1
        refine ⟨rs, ?_, h2⟩
        simp [h1.1]
      · obtain ⟨rs', h3, h4⟩ := ih4 x ⟨u, hu, rs, h1, h2⟩
        refine ⟨rs', ?_, h4⟩
        simp [h3]
    · simp only [List.flatten_cons, List.cons_append, List.nil_append, fetchErrors,
        List.filterMap_cons, FetchMsg.error?, hr, Option.bind_some]
      cases r2 with
      | none => simpa [fetchErrors] using ih5
      | some e => simpa [fetchErrors] using ih5

theorem foldl_allow_flag (b : String) (al : List String) : ∀ init : Bool,
    al.foldl (fun allowed a => if allowMatches b a then true else allowed) init = true ↔
      init = true ∨ ∃ a ∈ al, allowMatches b a = true := by
  induction al with
  | nil => intro init; simp
  | cons a al ih =>
    intro init
    rw [List.foldl_cons, ih]
    by_cases hm : allowMatches b a = true
    · simp [hm]
    · simp [hm]

theorem isAllowed_iff (b : String) (al : List String) :
    isAllowed b al = true ↔ ∃ a ∈ al, allowMatches b a = true := by
  unfold isAllowed
  rw [foldl_allow_flag]
  simp

theorem allowMatches_iff (b a : String) :
    allowMatches b a = true ↔ (b = a ∨ ("." ++ a).toList <:+ b.toList) := by
  simp [allowMatches]

theorem mem_addBlockedHostnames (bl al : List String) : ∀ (u : List String) (x : String),
    x ∈ addBlockedHostnames u bl al ↔ x ∈ u ∨ (x ∈ bl ∧ isAllowed x al = false) := by
  induction bl with
  | nil => intro u x; simp [addBlockedHostnames]
  | cons b bl ih =>
    intro u x
    unfold addBlockedHostnames at ih ⊢
    rw [List.foldl_cons, ih]
    by_cases hb : isAllowed b al = true
    · simp only [hb, if_true, List.mem_cons]
      constructor
      · rintro (h | ⟨h, h'⟩)
        · exact Or.inl h
        · exact Or.inr ⟨Or.inr h, h'⟩
      · rintro (h | ⟨h | h, h'⟩)
        · exact Or.inl h
        · subst h; rw [hb] at h'; cases h'
        · exact Or.inr ⟨h, h'⟩
    · have hb' : isAllowed b al = false := by simpa using hb
      simp only [hb', Bool.false_eq_true, if_false, setAdd, List.mem_insert_iff, List.mem_cons]
      constructor
      · rintro ((h | h) | ⟨h, h'⟩)
        · subst h; exact Or.inr ⟨Or.inl rfl, hb'⟩
        · exact Or.inl h
        · exact Or.inr ⟨Or.inr h, h'⟩
      · rintro (h | ⟨h | h, h'⟩)
        · exact Or.inl (Or.inr h)
        · exact Or.inl (Or.inl h)
        · exact Or.inr ⟨h, h'⟩

theorem nodup_addBlockedHostnames (bl al : List String) : ∀ (u : List String),
    u.Nodup → (addBlockedHostnames u bl al).Nodup := by
  induction bl with
  | nil => intro u h; simpa [addBlockedHostnames] using h
  | cons b bl ih =>
    intro u h
    unfold addBlockedHostnames at ih ⊢
    rw [List.foldl_cons]
    apply ih
    split
    · exact h
    · exact List.Nodup.insert h

theorem mem_removeAllowed (al : List String) : ∀ (u : List String) (x : String),
    x ∈ removeAllowed u al ↔ x ∈ u ∧ x ∉ al := by
  induction al with
  | nil => intro u x; simp [removeAllowed]
  | cons a al ih =>
    intro u x
    unfold removeAllowed at ih ⊢
    rw [List.foldl_cons, ih]
    simp only [setDelete, List.mem_filter, decide_eq_true_eq, List.mem_cons, not_or]
    tauto

theorem nodup_removeAllowed (al : List String) : ∀ (u : List String),
    u.Nodup → (removeAllowed u al).Nodup := by
  induction al with
  | nil => intro u h; simpa [removeAllowed] using h
  | cons a al ih =>
    intro u h
    unfold removeAllowed at ih ⊢
    rw [List.foldl_cons]
    exact ih _ (List.Nodup.filter _ h)

theorem hostnameLine_injective : Function.Injective hostnameLine := by
  intro a b h
  have h' := congrArg String.data h
  simp only [hostnameLine, String.data_append] at h'
  have h2 := List.append_cancel_right h'
  have h3 := List.append_cancel_left h2
  exact String.ext h3

theorem ipLine_injective : Function.Injective ipLine := by
  intro a b h
  have h' := congrArg String.data h
  simp only [ipLine, String.data_append] at h'
  exact String.ext (List.append_cancel_left h')

theorem countEnabled_eq (bm ba bs : Bool) (m a s : String) :
    countEnabled bm ba bs = (enabledURLs bm ba bs m a s).length := by
  cases bm <;> cases ba <;> cases bs <;> rfl

/-- The aggregation loop, run on any interleaving of the sends of the fetch goroutines,
terminates with the fold of its handler over the received messages. -/
theorem aggLoop_run (client : String → HttpOutcome) (fetchURLs : List String) (n : Nat)
    (hn : n = fetchURLs.length) (gs : List (List FetchMsg)) (received : List FetchMsg)
    (hsp : spawnFetches client fetchURLs = some gs) (hint : Interleaving gs received) :
    ∃ s, aggLoop received { uniqueResults := [], errs := [], listsLeftToFetch := n } = some s ∧
      s.uniqueResults.Nodup ∧ (∀ x, x ∈ s.uniqueResults ↔ Fetched client fetchURLs x) ∧
      s.errs.Perm (fetchErrors client fetchURLs) := by
  obtain ⟨h1, h2, h3, h4, h5⟩ := spawnFetches_spec client fetchURLs gs hsp
  have hrun := recvLoop_interleaving AggState.listsLeftToFetch aggHandle FetchMsg.isErr
    aggFold_listsLeft hint { uniqueResults := [], errs := [], listsLeftToFetch := n } h1
    (by rw [h2]; exact hn)
  have hperm := hint.perm_flatten
  refine ⟨_, hrun, aggFold_nodup _ _ List.nodup_nil, ?_, ?_⟩
  · intro x
    rw [aggFold_mem]
    simp only [List.not_mem_nil, false_or]
    constructor
    · rintro ⟨rs, hm, hx⟩
      exact h3 rs x ⟨hperm.mem_iff.1 hm, hx⟩
    · intro hf
      obtain ⟨rs, hm, hx⟩ := h4 x hf
      exact ⟨rs, hperm.mem_iff.2 hm, hx⟩
  · rw [aggFold_errs, ← h5]
    simpa using hperm.filterMap FetchMsg.error?

theorem hostnamesRun_keys {client : String → HttpOutcome} {urls : BlockListURLs}
    {bm ba bs : Bool} {blocked allowed : List String} {out : List String × List GoError}
    (h : HostnamesRun client urls bm ba bs blocked allowed out) :
    ∃ keys : List String, keys.Nodup ∧ out.1 = keys.map hostnameLine ∧
      (∀ x, x ∈ keys ↔ FinalHostname client (hostnameURLs urls bm ba bs) blocked allowed x) ∧
      out.2.Perm (fetchErrors client (hostnameURLs urls bm ba bs)) := by
  obtain ⟨gs, received, ro, hsp, hint, hro, hb⟩ := h
  obtain ⟨s, hs, hnd, hmem, herr⟩ := aggLoop_run client (hostnameURLs urls bm ba bs)
    (countEnabled bm ba bs) (countEnabled_eq bm ba bs _ _ _) gs received hsp hint
  simp only [buildBlockedHostnames, hs, Option.map_some', Option.some.injEq] at hb
  subst hb
  refine ⟨_, ?_, rfl, ?_, herr⟩
  · exact (hro _).nodup_iff.2 (nodup_removeAllowed _ _ (nodup_addBlockedHostnames _ _ _ hnd))
  · intro x
    rw [(hro _).mem_iff, mem_removeAllowed, mem_addBlockedHostnames, hmem]
    rfl

theorem ipsRun_keys {client : String → HttpOutcome} {urls : BlockListURLs}
    {bm ba bs : Bool} {blockedIPs : List String} {out : List String × List GoError}
    (h : IPsRun client urls bm ba bs blockedIPs out) :
    ∃ keys : List String, keys.Nodup ∧ out.1 = keys.map ipLine ∧
      (∀ x, x ∈ keys ↔ (Fetched client (ipURLs urls bm ba bs) x ∨ x ∈ blockedIPs)) ∧
      out.2.Perm (fetchErrors client (ipURLs urls bm ba bs)) := by
  obtain ⟨gs, received, ro, hsp, hint, hro, hb⟩ := h
  obtain ⟨s, hs, hnd, hmem, herr⟩ := aggLoop_run client (ipURLs urls bm ba bs)
    (countEnabled bm ba bs) (countEnabled_eq bm ba bs _ _ _) gs received hsp hint
  simp only [buildBlockedIPs, hs, Option.map_some', Option.some.injEq] at hb
  subst hb
  refine ⟨_, ?_, rfl, ?_, herr⟩
  · exact (hro _).nodup_iff.2 (nodup_foldl_setAdd _ _ hnd)
  · intro x
    rw [(hro _).mem_iff, mem_foldl_setAdd, hmem]

theorem Interleaving.cons_nil {α : Type} {gs : List (List α)} {t : List α}
    (h : Interleaving gs t) : Interleaving ([] :: gs) t := by
  induction h with
  | done qs h =>
    apply Interleaving.done
    intro q hq
    simp only [List.mem_cons] at hq
    rcases hq with hq | hq
    · exact hq
    · exact h q hq
  | recv pre post m rest t _ ih =>
    exact Interleaving.recv ([] :: pre) post m rest t ih

theorem Interleaving.sequential {α : Type} (gs : List (List α)) :
    Interleaving gs gs.flatten := by
  induction gs with
  | nil => exact Interleaving.done [] (by simp)
  | cons q gs ih =>
    induction q with
    | nil => simpa using ih.cons_nil
    | cons m q ihq =>
      simpa using Interleaving.recv [] gs m q (q ++ gs.flatten) (by simpa using ihq)

theorem isRangeOrder_id {α : Type} : IsRangeOrder (id : List α → List α) :=
  fun m => List.Perm.refl m

theorem hostnamesRun_exists (client : String → HttpOutcome) (urls : BlockListURLs)
    (bm ba bs : Bool) (blocked allowed : List String) :
    ∃ out, HostnamesRun client urls bm ba bs blocked allowed out := by
  obtain ⟨gs, hsp⟩ := spawnFetches_total client (hostnameURLs urls bm ba bs)
  obtain ⟨s, hs, _⟩ := aggLoop_run client (hostnameURLs urls bm ba bs) (countEnabled bm ba bs)
    (countEnabled_eq bm ba bs _ _ _) gs gs.flatten hsp (Interleaving.sequential gs)
  exact ⟨((removeAllowed (addBlockedHostnames s.uniqueResults blocked allowed) allowed).map
      hostnameLine, s.errs),
    gs, gs.flatten, id, hsp, Interleaving.sequential gs, isRangeOrder_id,
    by simp only [buildBlockedHostnames, hs, Option.map_some', id]⟩

theorem ipsRun_exists (client : String → HttpOutcome) (urls : BlockListURLs)
    (bm ba bs : Bool) (blockedIPs : List String) :
    ∃ out, IPsRun client urls bm ba bs blockedIPs out := by
  obtain ⟨gs, hsp⟩ := spawnFetches_total client (ipURLs urls bm ba bs)
  obtain ⟨s, hs, _⟩ := aggLoop_run client (ipURLs urls bm ba bs) (countEnabled bm ba bs)
    (countEnabled_eq bm ba bs _ _ _) gs gs.flatten hsp (Interleaving.sequential gs)
  exact ⟨((blockedIPs.foldl setAdd s.uniqueResults).map ipLine, s.errs),
    gs, gs.flatten, id, hsp, Interleaving.sequential gs, isRangeOrder_id,
    by simp only [buildBlockedIPs, hs, Option.map_some', id]⟩

theorem buildFold_n (s : BuildState) (m : BuildMsg) :
    (buildHandle s m).n = if m.isErrors then s.n - 1 else s.n := by
  cases m <;> rfl

theorem buildFold_hostnames (t : List BuildMsg) : ∀ s : BuildState,
    (t.foldl buildHandle s).hostnamesLines =
      s.hostnamesLines ++ (t.filterMap BuildMsg.hostnames?).flatten := by
  induction t with
  | nil => intro s; simp
  | cons m t ih => intro s; rw [List.foldl_cons, ih]; cases m <;> simp [buildHandle, BuildMsg.hostnames?]

theorem buildFold_ips (t : List BuildMsg) : ∀ s : BuildState,
    (t.foldl buildHandle s).ipsLines =
      s.ipsLines ++ (t.filterMap BuildMsg.ips?).flatten := by
  induction t with
  | nil => intro s; simp
  | cons m t ih => intro s; rw [List.foldl_cons, ih]; cases m <;> simp [buildHandle, BuildMsg.ips?]

theorem buildFold_errs (t : List BuildMsg) : ∀ s : BuildState,
    (t.foldl buildHandle s).errs = s.errs ++ (t.filterMap BuildMsg.errors?).flatten := by
  induction t with
  | nil => intro s; simp
  | cons m t ih => intro s; rw [List.foldl_cons, ih]; cases m <;> simp [buildHandle, BuildMsg.errors?]

/-- The loop of `BuildBlocked`, on any interleaving of the sends of its two goroutines,
terminates and returns the sorted lines of each aggregation and all their errors. -/
theorem buildBlocked_run (hl il : List String) (he ie : List GoError) (received : List BuildMsg)
    (hint : Interleaving [[BuildMsg.hostnames hl, BuildMsg.errors he],
      [BuildMsg.ips il, BuildMsg.errors ie]] received) :
    ∃ errs, BuildBlocked received = some (sortSlice hl, sortSlice il, errs) ∧
      errs.Perm (he ++ ie) := by
  have hwf : ∀ q ∈ [[BuildMsg.hostnames hl, BuildMsg.errors he],
      [BuildMsg.ips il, BuildMsg.errors ie]], Pending BuildMsg.isErrors q := by
    intro q hq
    simp only [List.mem_cons, List.mem_singleton, List.not_mem_nil, or_false] at hq
    rcases hq with hq | hq <;> subst hq <;> exact Or.inr (Or.inr ⟨_, _, rfl, rfl, rfl⟩)
  have hrun := recvLoop_interleaving BuildState.n buildHandle BuildMsg.isErrors buildFold_n hint
    { hostnamesLines := [], ipsLines := [], errs := [], n := 2 } hwf (by simp [BuildMsg.isErrors])
  have hperm := hint.perm_flatten
  have h1 : received.filterMap BuildMsg.hostnames? = [hl] := by
    have := hperm.filterMap BuildMsg.hostnames?
    simpa [BuildMsg.hostnames?] using this
  have h2 : received.filterMap BuildMsg.ips? = [il] := by
    have := hperm.filterMap BuildMsg.ips?
    simpa [BuildMsg.ips?] using this
  have h3 : (received.filterMap BuildMsg.errors?).Perm [he, ie] := by
    have := hperm.filterMap BuildMsg.errors?
    simpa [BuildMsg.errors?] using this
  refine ⟨(received.foldl buildHandle
    { hostnamesLines := [], ipsLines := [], errs := [], n := 2 }).errs, ?_, ?_⟩
  · simp only [BuildBlocked, hrun, Option.map_some', buildFold_hostnames, buildFold_ips, h1, h2,
      List.flatten_cons, List.flatten_nil, List.append_nil, List.nil_append]
  · rw [buildFold_errs]
    simpa using h3.flatten

theorem sortSlice_perm (l : List String) : (sortSlice l).Perm l :=
  List.perm_insertionSort _ l

theorem sortSlice_sorted_le (l : List String) : (sortSlice l).Sorted (· ≤ ·) := by
  have hrel : (fun a b : String => a.toList ≤ b.toList) = (fun a b : String => a ≤ b) := by
    funext a b
    exact propext String.le_iff_toList_le.symm
  have : (sortSlice l).Sorted (fun a b : String => a.toList ≤ b.toList) := by
    haveI : IsTotal String (fun a b : String => a.toList ≤ b.toList) :=
      ⟨fun a b => le_total a.toList b.toList⟩
    haveI : IsTrans String (fun a b : String => a.toList ≤ b.toList) :=
      ⟨fun a b c h1 h2 => le_trans h1 h2⟩
    exact List.sorted_insertionSort _ l
  rw [hrel] at this
  exact this

theorem sortSlice_sorted_lt (l : List String) (h : l.Nodup) : (sortSlice l).Sorted (· < ·) :=
  (sortSlice_sorted_le l).lt_of_le ((sortSlice_perm l).nodup_iff.2 h)

theorem sortSlice_congr {l₁ l₂ : List String} (h : l₁.Perm l₂) : sortSlice l₁ = sortSlice l₂ :=
  List.eq_of_perm_of_sorted ((sortSlice_perm l₁).trans (h.trans (sortSlice_perm l₂).symm))
    (sortSlice_sorted_le l₁) (sortSlice_sorted_le l₂)

theorem buildBlockedRun_spec {client : String → HttpOutcome} {urls : BlockListURLs}
    {bm ba bs : Bool} {blockedHostnames blockedIPs allowedHostnames : List String}
    {out : List String × List String × List GoError}
    (h : BuildBlockedRun client urls bm ba bs blockedHostnames blockedIPs allowedHostnames out) :
    ∃ hout iout,
      HostnamesRun client urls bm ba bs blockedHostnames allowedHostnames hout ∧
      IPsRun client urls bm ba bs blockedIPs iout ∧
      out.1 = sortSlice hout.1 ∧ out.2.1 = sortSlice iout.1 ∧
      out.2.2.Perm (hout.2 ++ iout.2) := by
  obtain ⟨hout, iout, received, hh, hi, hint, hb⟩ := h
  obtain ⟨errs, hrun, hperm⟩ := buildBlocked_run hout.1 iout.1 hout.2 iout.2 received hint
  rw [hrun] at hb
  simp only [Option.some.injEq] at hb
  subst hb
  exact ⟨hout, iout, hh, hi, rfl, rfl, hperm⟩

theorem buildBlockedRun_exists (client : String → HttpOutcome) (urls : BlockListURLs)
    (bm ba bs : Bool) (blockedHostnames blockedIPs allowedHostnames : List String) :
    ∃ out, BuildBlockedRun client urls bm ba bs blockedHostnames blockedIPs allowedHostnames
      out := by
  obtain ⟨hout, hh⟩ := hostnamesRun_exists client urls bm ba bs blockedHostnames allowedHostnames
  obtain ⟨iout, hi⟩ := ipsRun_exists client urls bm ba bs blockedIPs
  have hint := Interleaving.sequential [[BuildMsg.hostnames hout.1, BuildMsg.errors hout.2],
      [BuildMsg.ips iout.1, BuildMsg.errors iout.2]]
  obtain ⟨errs, hrun, _⟩ := buildBlocked_run hout.1 iout.1 hout.2 iout.2 _ hint
  exact ⟨(sortSlice hout.1, sortSlice iout.1, errs), hout, iout, _, hh, hi, hint, hrun⟩

/-! ## Sample runs and line membership -/

theorem hostnamesRun_sequential (client : String → HttpOutcome) (urls : BlockListURLs)
    (bm ba bs : Bool) (blocked allowed : List String) (gs : List (List FetchMsg))
    (out : List String × List GoError)
    (h1 : spawnFetches client (hostnameURLs urls bm ba bs) = some gs)
    (h2 : buildBlockedHostnames bm ba bs blocked allowed gs.flatten id = some out) :
    HostnamesRun client urls bm ba bs blocked allowed out :=
  ⟨gs, gs.flatten, id, h1, Interleaving.sequential gs, isRangeOrder_id, h2⟩

theorem ipsRun_sequential (client : String → HttpOutcome) (urls : BlockListURLs)
    (bm ba bs : Bool) (blockedIPs : List String) (gs : List (List FetchMsg))
    (out : List String × List GoError)
    (h1 : spawnFetches client (ipURLs urls bm ba bs) = some gs)
    (h2 : buildBlockedIPs bm ba bs blockedIPs gs.flatten id = some out) :
    IPsRun client urls bm ba bs blockedIPs out :=
  ⟨gs, gs.flatten, id, h1, Interleaving.sequential gs, isRangeOrder_id, h2⟩

theorem sampleHostnamesRun :
    HostnamesRun sampleClient sampleURLs true true true sampleBlocked sampleAllowed
      sampleHostnamesOut :=
  hostnamesRun_sequential _ _ _ _ _ _ _ sampleHostnameGoroutines _ (by decide) (by decide)

theorem sampleIPsRun :
    IPsRun sampleClient sampleURLs true true true sampleBlockedIPs
      sampleIPsOut :=
  ipsRun_sequential _ _ _ _ _ _ sampleIPGoroutines _ (by decide) (by decide)

theorem isAllowed_eq_false_iff (x : String) (allowed : List String) :
    isAllowed x allowed = false ↔
      ∀ a ∈ allowed, ¬ (x = a ∨ ("." ++ a).toList <:+ x.toList) := by
  rw [← Bool.not_eq_true, isAllowed_iff]
  simp only [allowMatches_iff, not_exists, not_and]

theorem hostnamesRun_line_iff {client : String → HttpOutcome} {urls : BlockListURLs}
    {bm ba bs : Bool} {blocked allowed : List String} {out : List String × List GoError}
    (h : HostnamesRun client urls bm ba bs blocked allowed out) (x : String) :
    hostnameLine x ∈ out.1 ↔
      FinalHostname client (hostnameURLs urls bm ba bs) blocked allowed x := by
  obtain ⟨keys, _, hout, hmem, _⟩ := hostnamesRun_keys h
  rw [hout, ← hmem, List.mem_map]
  constructor
  · rintro ⟨y, hy, he⟩
    rw [← hostnameLine_injective he]
    exact hy
  · intro hx
    exact ⟨x, hx, rfl⟩

theorem hostnamesReturns (client : String → HttpOutcome) (urls : BlockListURLs)
    (bm ba bs : Bool) (blocked allowed : List String) :
    HostnamesReturns client urls bm ba bs blocked allowed := by
  obtain ⟨gs, hsp⟩ := spawnFetches_total client (hostnameURLs urls bm ba bs)
  refine ⟨gs, hsp, fun received rangeOrder hint => ?_⟩
  obtain ⟨s, hs, _⟩ := aggLoop_run client (hostnameURLs urls bm ba bs) (countEnabled bm ba bs)
    (countEnabled_eq bm ba bs _ _ _) gs received hsp hint
  exact ⟨((rangeOrder (removeAllowed (addBlockedHostnames s.uniqueResults blocked allowed)
      allowed)).map hostnameLine, s.errs),
    by simp only [buildBlockedHostnames, hs, Option.map_some']⟩

theorem ipsReturns (client : String → HttpOutcome) (urls : BlockListURLs)
    (bm ba bs : Bool) (blockedIPs : List String) :
    IPsReturns client urls bm ba bs blockedIPs := by
  obtain ⟨gs, hsp⟩ := spawnFetches_total client (ipURLs urls bm ba bs)
  refine ⟨gs, hsp, fun received rangeOrder hint => ?_⟩
  obtain ⟨s, hs, _⟩ := aggLoop_run client (ipURLs urls bm ba bs) (countEnabled bm ba bs)
    (countEnabled_eq bm ba bs _ _ _) gs received hsp hint
  exact ⟨((rangeOrder (blockedIPs.foldl setAdd s.uniqueResults)).map ipLine, s.errs),
    by simp only [buildBlockedIPs, hs, Option.map_some']⟩

theorem buildBlockedReturns (client : String → HttpOutcome) (urls : BlockListURLs)
    (bm ba bs : Bool) (blockedHostnames blockedIPs allowedHostnames : List String) :
    BuildBlockedReturns client urls bm ba bs blockedHostnames blockedIPs allowedHostnames := by
  refine ⟨hostnamesReturns _ _ _ _ _ _ _, ipsReturns _ _ _ _ _ _, ?_⟩
  intro h i received hint
  obtain ⟨errs, hrun, _⟩ := buildBlocked_run h.1 i.1 h.2 i.2 received hint
  exact ⟨_, hrun⟩

theorem buildBlockedRun_sequential (client : String → HttpOutcome) (urls : BlockListURLs)
    (bm ba bs : Bool) (blockedHostnames blockedIPs allowedHostnames : List String)
    (hout iout : List String × List GoError)
    (out : List String × List String × List GoError)
    (hh : HostnamesRun client urls bm ba bs blockedHostnames allowedHostnames hout)
    (hi : IPsRun client urls bm ba bs blockedIPs iout)
    (hb : BuildBlocked [BuildMsg.hostnames hout.1, BuildMsg.errors hout.2,
      BuildMsg.ips iout.1, BuildMsg.errors iout.2] = some out) :
    BuildBlockedRun client urls bm ba bs blockedHostnames blockedIPs allowedHostnames out :=
  ⟨hout, iout, _, hh, hi,
    Interleaving.sequential [[BuildMsg.hostnames hout.1, BuildMsg.errors hout.2],
      [BuildMsg.ips iout.1, BuildMsg.errors iout.2]], hb⟩

theorem sampleBuildBlockedRun :
    BuildBlockedRun sampleClient sampleURLs true true true sampleBlocked sampleBlockedIPs
      sampleAllowed
      sampleBuildOut :=
  buildBlockedRun_sequential _ _ _ _ _ _ _ _ _ _ _ sampleHostnamesRun sampleIPsRun (by decide)

theorem hostnamesRun_lines_nodup {client : String → HttpOutcome} {urls : BlockListURLs}
    {bm ba bs : Bool} {blocked allowed : List String} {out : List String × List GoError}
    (h : HostnamesRun client urls bm ba bs blocked allowed out) : out.1.Nodup := by
  obtain ⟨keys, hnd, hout, _, _⟩ := hostnamesRun_keys h
  rw [hout]
  exact hnd.map hostnameLine_injective

theorem ipsRun_lines_nodup {client : String → HttpOutcome} {urls : BlockListURLs}
    {bm ba bs : Bool} {blockedIPs : List String} {out : List String × List GoError}
    (h : IPsRun client urls bm ba bs blockedIPs out) : out.1.Nodup := by
  obtain ⟨keys, hnd, hout, _, _⟩ := ipsRun_keys h
  rw [hout]
  exact hnd.map ipLine_injective

/-! ## The option lines of the server block are pairwise distinct -/

theorem optionLine_data (kv : String × String) :
    (optionLine kv).data = optionPrefix kv.1 ++ kv.2.data := by
  simp [optionLine, optionPrefix, String.data_append]

theorem optionLine_ne_of_prefixFree (o₁ o₂ : String × String) (h : PrefixFree o₁.1 o₂.1) :
    optionLine o₁ ≠ optionLine o₂ := by
  intro he
  have h1 : optionPrefix o₁.1 <+: (optionLine o₂).data := by
    rw [← he, optionLine_data]
    exact List.prefix_append _ _
  have h2 : optionPrefix o₂.1 <+: (optionLine o₂).data := by
    rw [optionLine_data]
    exact List.prefix_append _ _
  rcases List.prefix_or_prefix_of_prefix h1 h2 with h3 | h3
  · exact h.1 h3
  · exact h.2 h3

theorem nodup_optionLines (l : List (String × String))
    (h : (l.map Prod.fst).Pairwise PrefixFree) : (l.map optionLine).Nodup := by
  rw [List.pairwise_map] at h
  rw [List.Nodup, List.pairwise_map]
  exact h.imp (fun {a b} hab => optionLine_ne_of_prefixFree a b hab)

theorem serverKeys_prefixFree : serverKeys.Pairwise PrefixFree := by
  decide

theorem serverSection_keys (c : Constants) (settings : UnboundSettings)
    (unboundDir username : String) :
    (serverSection c settings unboundDir username).map Prod.fst = serverKeys := rfl

theorem serverOptions_sublist (c : Constants) (settings : UnboundSettings)
    (unboundDir username : String) :
    (serverOptions c settings unboundDir username).Sublist
      (serverSection c settings unboundDir username) := by
  unfold serverOptions
  generalize serverSection c settings unboundDir username = sect
  induction settings.Providers generalizing sect with
  | nil => exact List.Sublist.refl _
  | cons p ps ih =>
    rw [List.foldl_cons]
    refine (ih _).trans ?_
    split
    · exact List.filter_sublist _
    · exact List.Sublist.refl _

theorem serverOptions_lines_nodup (c : Constants) (settings : UnboundSettings)
    (unboundDir username : String) :
    ((serverOptions c settings unboundDir username).map optionLine).Nodup := by
  refine List.Nodup.sublist ((serverOptions_sublist c settings unboundDir username).map _) ?_
  apply nodup_optionLines
  rw [serverSection_keys]
  exact serverKeys_prefixFree

theorem ipsRun_line_iff {client : String → HttpOutcome} {urls : BlockListURLs}
    {bm ba bs : Bool} {blockedIPs : List String} {out : List String × List GoError}
    (h : IPsRun client urls bm ba bs blockedIPs out) (x : String) :
    ipLine x ∈ out.1 ↔ (Fetched client (ipURLs urls bm ba bs) x ∨ x ∈ blockedIPs) := by
  obtain ⟨keys, _, hout, hmem, _⟩ := ipsRun_keys h
  rw [hout, ← hmem, List.mem_map]
  constructor
  · rintro ⟨y, hy, he⟩
    rw [← ipLine_injective he]
    exact hy
  · intro hx
    exact ⟨x, hx, rfl⟩

/-! ## Failed fetches and the choice of the iteration order -/

theorem mem_enabledURLs (bm ba bs : Bool) (m a s url : String) :
    url ∈ enabledURLs bm ba bs m a s ↔
      (bm = true ∧ url = m) ∨ (ba = true ∧ url = a) ∨ (bs = true ∧ url = s) := by
  cases bm <;> cases ba <;> cases bs <;> simp [enabledURLs]

theorem fetchOK_of_success {client : String → HttpOutcome} {url : String}
    {results : List String} (h : getList (client url) = some (some results, none)) :
    fetchOK client url = true := by
  simp [fetchOK, h]

theorem fetched_restrict (client : String → HttpOutcome) (bm ba bs : Bool)
    (m a s x : String) :
    Fetched client (enabledURLs (bm && fetchOK client m) (ba && fetchOK client a)
      (bs && fetchOK client s) m a s) x ↔ Fetched client (enabledURLs bm ba bs m a s) x := by
  constructor
  · rintro ⟨url, hu, rs, hg, hx⟩
    refine ⟨url, ?_, rs, hg, hx⟩
    rw [mem_enabledURLs] at hu ⊢
    simp only [Bool.and_eq_true] at hu
    rcases hu with ⟨⟨h1, _⟩, h2⟩ | ⟨⟨h1, _⟩, h2⟩ | ⟨⟨h1, _⟩, h2⟩
    · exact Or.inl ⟨h1, h2⟩
    · exact Or.inr (Or.inl ⟨h1, h2⟩)
    · exact Or.inr (Or.inr ⟨h1, h2⟩)
  · rintro ⟨url, hu, rs, hg, hx⟩
    refine ⟨url, ?_, rs, hg, hx⟩
    have hok := fetchOK_of_success hg
    rw [mem_enabledURLs] at hu ⊢
    simp only [Bool.and_eq_true]
    rcases hu with ⟨h1, h2⟩ | ⟨h1, h2⟩ | ⟨h1, h2⟩
    · exact Or.inl ⟨⟨h1, h2 ▸ hok⟩, h2⟩
    · exact Or.inr (Or.inl ⟨⟨h1, h2 ▸ hok⟩, h2⟩)
    · exact Or.inr (Or.inr ⟨⟨h1, h2 ▸ hok⟩, h2⟩)

theorem fetchErrors_eq_nil (client : String → HttpOutcome) (l : List String)
    (h : ∀ url ∈ l, fetchOK client url = true) : fetchErrors client l = [] := by
  induction l with
  | nil => rfl
  | cons u l ih =>
    have hu := h u (by simp)
    have hl := ih (fun url hurl => h url (by simp [hurl]))
    unfold fetchErrors at hl ⊢
    simp only [fetchOK, Option.isNone_iff_eq_none] at hu
    simp [List.filterMap_cons, hu, hl]

theorem fetchErrors_restrict (client : String → HttpOutcome) (bm ba bs : Bool)
    (m a s : String) :
    fetchErrors client (enabledURLs (bm && fetchOK client m) (ba && fetchOK client a)
      (bs && fetchOK client s) m a s) = [] := by
  apply fetchErrors_eq_nil
  intro url hu
  rw [mem_enabledURLs] at hu
  simp only [Bool.and_eq_true] at hu
  rcases hu with ⟨⟨_, h1⟩, h2⟩ | ⟨⟨_, h1⟩, h2⟩ | ⟨⟨_, h1⟩, h2⟩ <;> rw [h2] <;> exact h1

theorem isRangeOrder_choose {α : Type} [DecidableEq α] (keys : List α) :
    IsRangeOrder (fun m : List α => if m.Perm keys then keys else m) := by
  intro m
  by_cases h : m.Perm keys
  · simp only [h, if_true]
    exact h.symm
  · simp only [h, if_false]
    exact List.Perm.refl m

/-- Every duplicate-free ordering of the final hostnames is returned by some run. -/
theorem hostnamesRun_of_keys (client : String → HttpOutcome) (urls : BlockListURLs)
    (bm ba bs : Bool) (blocked allowed keys : List String) (hnd : keys.Nodup)
    (hkeys : ∀ x, x ∈ keys ↔
      FinalHostname client (hostnameURLs urls bm ba bs) blocked allowed x) :
    ∃ errs, HostnamesRun client urls bm ba bs blocked allowed
      (keys.map hostnameLine, errs) := by
  obtain ⟨gs, hsp⟩ := spawnFetches_total client (hostnameURLs urls bm ba bs)
  obtain ⟨s, hs, hsnd, hmem, _⟩ := aggLoop_run client (hostnameURLs urls bm ba bs)
    (countEnabled bm ba bs) (countEnabled_eq bm ba bs _ _ _) gs gs.flatten hsp
    (Interleaving.sequential gs)
  have hperm : (removeAllowed (addBlockedHostnames s.uniqueResults blocked allowed)
      allowed).Perm keys := by
    rw [List.perm_ext_iff_of_nodup
      (nodup_removeAllowed _ _ (nodup_addBlockedHostnames _ _ _ hsnd)) hnd]
    intro x
    rw [hkeys, mem_removeAllowed, mem_addBlockedHostnames, hmem]
    rfl
  refine ⟨s.errs, gs, gs.flatten, fun m => if m.Perm keys then keys else m, hsp,
    Interleaving.sequential gs, isRangeOrder_choose keys, ?_⟩
  simp only [buildBlockedHostnames, hs, Option.map_some', hperm, if_true]

/-- Every duplicate-free ordering of the final IPs is returned by some run. -/
theorem ipsRun_of_keys (client : String → HttpOutcome) (urls : BlockListURLs)
    (bm ba bs : Bool) (blockedIPs keys : List String) (hnd : keys.Nodup)
    (hkeys : ∀ x, x ∈ keys ↔ (Fetched client (ipURLs urls bm ba bs) x ∨ x ∈ blockedIPs)) :
    ∃ errs, IPsRun client urls bm ba bs blockedIPs (keys.map ipLine, errs) := by
  obtain ⟨gs, hsp⟩ := spawnFetches_total client (ipURLs urls bm ba bs)
  obtain ⟨s, hs, hsnd, hmem, _⟩ := aggLoop_run client (ipURLs urls bm ba bs)
    (countEnabled bm ba bs) (countEnabled_eq bm ba bs _ _ _) gs gs.flatten hsp
    (Interleaving.sequential gs)
  have hperm : (blockedIPs.foldl setAdd s.uniqueResults).Perm keys := by
    rw [List.perm_ext_iff_of_nodup (nodup_foldl_setAdd _ _ hsnd) hnd]
    intro x
    rw [hkeys, mem_foldl_setAdd, hmem]
  refine ⟨s.errs, gs, gs.flatten, fun m => if m.Perm keys then keys else m, hsp,
    Interleaving.sequential gs, isRangeOrder_choose keys, ?_⟩
  simp only [buildBlockedIPs, hs, Option.map_some', hperm, if_true]

theorem finalHostname_restrict (client : String → HttpOutcome) (urls : BlockListURLs)
    (bm ba bs : Bool) (blocked allowed : List String) (x : String) :
    FinalHostname client
      (hostnameURLs urls (bm && fetchOK client urls.maliciousBlockListHostnamesURL)
        (ba && fetchOK client urls.adsBlockListHostnamesURL)
        (bs && fetchOK client urls.surveillanceBlockListHostnamesURL)) blocked allowed x ↔
    FinalHostname client (hostnameURLs urls bm ba bs) blocked allowed x := by
  unfold FinalHostname hostnameURLs
  rw [fetched_restrict]

/-! ## A second run on the sample network -/

theorem popSend_spec {α : Type} [DecidableEq α] (m : α) (qs qs' : List (List α))
    (h : popSend m qs = some qs') :
    ∃ pre post rest, qs = pre ++ (m :: rest) :: post ∧ qs' = pre ++ rest :: post := by
  induction qs generalizing qs' with
  | nil => simp [popSend] at h
  | cons q qs ih =>
    cases q with
    | nil =>
      simp only [popSend, Option.map_eq_some'] at h
      obtain ⟨r, hr, rfl⟩ := h
      obtain ⟨pre, post, rest, h1, h2⟩ := ih r hr
      exact ⟨[] :: pre, post, rest, by rw [h1]; rfl, by rw [h2]; rfl⟩
    | cons x rest =>
      by_cases hx : x = m
      · simp only [popSend, hx, if_true, Option.some.injEq] at h
        exact ⟨[], qs, rest, by rw [hx]; rfl, by rw [← h]; rfl⟩
      · simp only [popSend, hx, if_false, Option.map_eq_some'] at h
        obtain ⟨r, hr, rfl⟩ := h
        obtain ⟨pre, post, rest', h1, h2⟩ := ih r hr
        exact ⟨(x :: rest) :: pre, post, rest', by rw [h1]; rfl, by rw [h2]; rfl⟩

theorem checkInterleaving_sound {α : Type} [DecidableEq α] (t : List α) :
    ∀ qs : List (List α), checkInterleaving qs t = true → Interleaving qs t := by
  induction t with
  | nil =>
    intro qs h
    apply Interleaving.done
    intro q hq
    simp only [checkInterleaving, List.all_eq_true] at h
    exact List.isEmpty_iff.1 (h q hq)
  | cons m t ih =>
    intro qs h
    unfold checkInterleaving at h
    split at h
    · rename_i qs' hp
      obtain ⟨pre, post, rest, h1, h2⟩ := popSend_spec m qs qs' hp
      rw [h1]
      exact Interleaving.recv pre post m rest t (h2 ▸ ih qs' h)
    · cases h

theorem sampleHostnamesRun2 :
    HostnamesRun sampleClient sampleURLs true true true sampleBlocked sampleAllowed
      sampleHostnamesOut2 :=
  ⟨sampleHostnameGoroutines, sampleHostnameReceived2, List.reverse, by decide,
    checkInterleaving_sound _ _ (by decide), fun m => List.reverse_perm m, by decide⟩

theorem sampleBuildBlockedRun2 :
    BuildBlockedRun sampleClient sampleURLs true true true sampleBlocked sampleBlockedIPs
      sampleAllowed
      sampleBuildOut2 :=
  ⟨sampleHostnamesOut2, sampleIPsOut,
    [BuildMsg.ips sampleIPsOut.1, BuildMsg.hostnames sampleHostnamesOut2.1,
      BuildMsg.errors sampleIPsOut.2, BuildMsg.errors sampleHostnamesOut2.2],
    sampleHostnamesRun2, sampleIPsRun, checkInterleaving_sound _ _ (by decide), by decide⟩

/-! ## The empty-line removal loop of `getList` -/

theorem string_length_eq_zero_iff (s : String) : s.length = 0 ↔ s = "" := by
  constructor
  · intro h
    apply String.ext
    exact List.length_eq_zero.1 h
  · rintro rfl
    rfl

theorem isEmptyLine_iff (s : String) : isEmptyLine s = true ↔ s = "" := by
  simp [isEmptyLine, string_length_eq_zero_iff]

theorem countP_take_le (orig : List String) (i : Nat) :
    (orig.take i).countP isEmptyLine ≤ i := by
  refine (List.countP_le_length _).trans ?_
  rw [List.length_take]
  exact Nat.min_le_left _ _

/-- One iteration of the removal loop: it does not panic, leaves the elements beyond `i`
untouched and decrements `last` exactly when the element at `i` is empty. -/
theorem removeEmptyIter_state (orig : List String) (i : Nat) (st : LoopState)
    (hlen : st.results.length = orig.length) (hi : i < orig.length)
    (hrest : ∀ j, i ≤ j → st.results[j]? = orig[j]?)
    (hlast : st.last = (orig.length : Int) - 1 - ((orig.take i).countP isEmptyLine : Nat)) :
    ∃ st', removeEmptyIter i st = some st' ∧ st'.results.length = orig.length ∧
      (∀ j, i + 1 ≤ j → st'.results[j]? = orig[j]?) ∧
      st'.last =
        (orig.length : Int) - 1 - ((orig.take (i + 1)).countP isEmptyLine : Nat) := by
  have hcnt := countP_take_le orig i
  have h1 : st.results[i]? = some orig[i] := by
    rw [hrest i (Nat.le_refl i)]
    exact List.getElem?_eq_getElem hi
  have htake : orig.take (i + 1) = orig.take i ++ [orig[i]] := by
    rw [List.take_succ, List.getElem?_eq_getElem hi]
    rfl
  unfold removeEmptyIter
  rw [h1]
  simp only
  by_cases he : orig[i].length = 0
  · have h0 : ¬ st.last < 0 := by omega
    have h2 : st.last.toNat < st.results.length := by omega
    rw [if_pos he, if_neg h0, List.getElem?_eq_getElem h2]
    refine ⟨_, rfl, by simp [hlen], ?_, ?_⟩
    · intro j hj
      simp only
      rw [List.getElem?_set_ne (by omega)]
      exact hrest j (by omega)
    · simp only
      rw [htake, List.countP_append]
      simp only [List.countP_cons, List.countP_nil, isEmptyLine, he, decide_True, if_true]
      omega
  · rw [if_neg he]
    refine ⟨st, rfl, hlen, fun j hj => hrest j (by omega), ?_⟩
    rw [htake, List.countP_append]
    simp only [List.countP_cons, List.countP_nil, isEmptyLine, he, decide_False,
      Bool.false_eq_true, if_false, Nat.add_zero]
    exact hlast

theorem removeEmptyFrom_state (orig : List String) (k : Nat) : ∀ (i : Nat) (st : LoopState),
    st.results.length = orig.length → i + k ≤ orig.length →
    (∀ j, i ≤ j → st.results[j]? = orig[j]?) →
    st.last = (orig.length : Int) - 1 - ((orig.take i).countP isEmptyLine : Nat) →
    ∃ st', removeEmptyFrom i k st = some st' ∧ st'.results.length = orig.length ∧
      (∀ j, i + k ≤ j → st'.results[j]? = orig[j]?) ∧
      st'.last =
        (orig.length : Int) - 1 - ((orig.take (i + k)).countP isEmptyLine : Nat) := by
  induction k with
  | zero =>
    intro i st hlen _ hrest hlast
    exact ⟨st, rfl, hlen, hrest, hlast⟩
  | succ k ih =>
    intro i st hlen hik hrest hlast
    obtain ⟨st1, h1, hlen1, hrest1, hlast1⟩ :=
      removeEmptyIter_state orig i st hlen (by omega) hrest hlast
    obtain ⟨st2, h2, hlen2, hrest2, hlast2⟩ := ih (i + 1) st1 hlen1 (by omega) hrest1 hlast1
    refine ⟨st2, by simp [removeEmptyFrom, h1, h2], hlen2, ?_, ?_⟩
    · intro j hj
      exact hrest2 j (by omega)
    · have hk : i + 1 + k = i + (k + 1) := by omega
      rw [hk] at hlast2
      exact hlast2

/-- The state before iteration `i` of the removal loop: no earlier iteration panics, the
slice keeps its length, and `last` is `len(results) - 1` minus the number of empty elements
among the first `i`. -/
theorem removeEmptyLoop_before (results : List String) (i : Nat) (hi : i ≤ results.length) :
    ∃ st, removeEmptyFrom 0 i (loopStart results) = some st ∧
      st.results.length = results.length ∧
      st.results[i]? = results[i]? ∧
      st.last =
        (results.length : Int) - 1 - ((results.take i).countP isEmptyLine : Nat) := by
  obtain ⟨st, h, hlen, hrest, hlast⟩ :=
    removeEmptyFrom_state results i 0 (loopStart results) rfl (by omega) (fun _ _ => rfl)
      (by simp [loopStart])
  rw [Nat.zero_add] at hrest hlast
  exact ⟨st, h, hlen, hrest i (Nat.le_refl i), hlast⟩

theorem removeEmptyLoop_state (results : List String) :
    ∃ st, removeEmptyLoop results = some st ∧ st.results.length = results.length ∧
      st.last = (results.length : Int) - 1 - (results.countP isEmptyLine : Nat) := by
  obtain ⟨st, h, hlen, _, hlast⟩ := removeEmptyLoop_before results results.length (Nat.le_refl _)
  rw [List.take_length] at hlast
  exact ⟨st, h, hlen, hlast⟩

theorem getList_ok (status content : String) :
    getList (successResponse status content) = parseList content := by
  simp [getList, successResponse, statusOK]

/-- The result of the part of `getList` that follows the read, for every body: it returns,
without error, a list with as many entries as the split body has non-empty elements. -/
theorem parseList_length (content : String) :
    ∃ results, parseList content = some (results, none) ∧
      (results.getD []).length =
        ((splitNewline content).filter (fun l => decide (l ≠ ""))).length := by
  obtain ⟨st, h, hlen, hlast⟩ := removeEmptyLoop_state (splitNewline content)
  have hc : (splitNewline content).countP isEmptyLine ≤ (splitNewline content).length :=
    List.countP_le_length _
  have hsplit := @List.length_eq_countP_add_countP _ isEmptyLine (splitNewline content)
  have hfilter : ((splitNewline content).filter (fun l => decide (l ≠ ""))).length =
      (splitNewline content).countP (fun a => decide ¬ isEmptyLine a = true) := by
    rw [List.countP_eq_length_filter]
    congr 2
    funext l
    simp [isEmptyLine_iff]
  have hs : 0 ≤ st.last + 1 ∧ st.last + 1 ≤ (st.results.length : Int) := by omega
  have htn : (st.last + 1).toNat =
      (splitNewline content).length - (splitNewline content).countP isEmptyLine := by omega
  simp only [parseList, h, Option.some_bind, sliceTo, hs, and_self, if_true, Option.map_some',
    htn]
  have hl : (st.results.take ((splitNewline content).length -
      (splitNewline content).countP isEmptyLine)).length =
      (splitNewline content).length - (splitNewline content).countP isEmptyLine := by
    rw [List.length_take, hlen]
    omega
  rw [hfilter]
  split
  · rename_i h0
    refine ⟨none, rfl, ?_⟩
    rw [hl] at h0
    simp only [Option.getD_none, List.length_nil]
    omega
  · refine ⟨_, rfl, ?_⟩
    simp only [Option.getD_some, hl]
    omega

theorem removeEmptyFrom_add (j₁ : Nat) : ∀ (i j₂ : Nat) (st : LoopState),
    removeEmptyFrom i (j₁ + j₂) st =
      (removeEmptyFrom i j₁ st).bind (removeEmptyFrom (i + j₁) j₂) := by
  induction j₁ with
  | zero =>
    intro i j₂ st
    simp [removeEmptyFrom]
  | succ j₁ ih =>
    intro i j₂ st
    have h : j₁ + 1 + j₂ = (j₁ + j₂) + 1 := by omega
    rw [h]
    simp only [removeEmptyFrom]
    cases hit : removeEmptyIter i st with
    | none => rfl
    | some st1 =>
      simp only [Option.some_bind]
      rw [ih]
      have h2 : i + 1 + j₁ = i + (j₁ + 1) := by omega
      rw [h2]

/-- Over leading non-empty elements the loop changes nothing. -/
theorem removeEmptyFrom_nonempty (ls rest : List String) (hne : ∀ l ∈ ls, l ≠ "")
    (last : Int) : ∀ (j i : Nat), i + j ≤ ls.length →
    removeEmptyFrom i j { results := ls ++ rest, last := last } =
      some { results := ls ++ rest, last := last } := by
  intro j
  induction j with
  | zero => intro i _; rfl
  | succ j ih =>
    intro i hij
    have hi : i < ls.length := by omega
    have h1 : (ls ++ rest)[i]? = some ls[i] := by
      rw [List.getElem?_append_left hi]
      exact List.getElem?_eq_getElem hi
    have h2 : ¬ ls[i].length = 0 := by
      rw [string_length_eq_zero_iff]
      exact hne _ (List.getElem_mem hi)
    simp only [removeEmptyFrom, removeEmptyIter, h1, h2, if_false, Option.some_bind]
    exact ih (i + 1) (by omega)

/-- Over trailing empty elements the loop only decrements `last`. -/
theorem removeEmptyFrom_trailing (ls : List String) (k : Nat) : ∀ (j a : Nat), a + j ≤ k →
    removeEmptyFrom (ls.length + a) j
      { results := ls ++ List.replicate k "", last := ((ls.length + k : Nat) : Int) - 1 - a } =
      some { results := ls ++ List.replicate k "",
             last := ((ls.length + k : Nat) : Int) - 1 - ((a + j : Nat) : Int) } := by
  intro j
  induction j with
  | zero => intro a _; rfl
  | succ j ih =>
    intro a haj
    have h1 : (ls ++ List.replicate k "")[ls.length + a]? = some "" := by
      rw [List.getElem?_append_right (by omega)]
      simp only [Nat.add_sub_cancel_left]
      exact List.getElem?_replicate_of_lt (by omega)
    have h0 : ¬ (((ls.length + k : Nat) : Int) - 1 - a < 0) := by omega
    have htn : (((ls.length + k : Nat) : Int) - 1 - a).toNat = ls.length + (k - 1 - a) := by
      omega
    have h2 : (ls ++ List.replicate k "")[ls.length + (k - 1 - a)]? = some "" := by
      rw [List.getElem?_append_right (by omega)]
      simp only [Nat.add_sub_cancel_left]
      exact List.getElem?_replicate_of_lt (by omega)
    have hset : (ls ++ List.replicate k "").set (ls.length + a) "" =
        ls ++ List.replicate k "" := by
      apply List.ext_getElem?
      intro n
      rw [List.getElem?_set]
      split
      · rename_i hn
        subst hn
        rw [h1]
        simp only [List.length_append, List.length_replicate]
        rw [if_pos (by omega)]
      · rfl
    have hlen0 : ("" : String).length = 0 := rfl
    simp only [removeEmptyFrom, removeEmptyIter, h1, hlen0, if_true, h0, if_false, htn, h2,
      hset, Option.some_bind]
    have hstep := ih (a + 1) (by omega)
    have e1 : ls.length + a + 1 = ls.length + (a + 1) := by omega
    have e2 : ((ls.length + k : Nat) : Int) - 1 - (a : Int) - 1 =
        ((ls.length + k : Nat) : Int) - 1 - ((a + 1 : Nat) : Int) := by omega
    have e3 : a + 1 + j = a + (j + 1) := by omega
    rw [e1, e2, hstep, e3]

/-- When all empty elements are trailing the loop keeps the slice as it is and ends with
`last` on the last non-empty element. -/
theorem removeEmptyLoop_trailing (ls : List String) (k : Nat) (hne : ∀ l ∈ ls, l ≠ "") :
    removeEmptyLoop (ls ++ List.replicate k "") =
      some { results := ls ++ List.replicate k "", last := (ls.length : Int) - 1 } := by
  have hlen : (ls ++ List.replicate k "").length = ls.length + k := by simp
  unfold removeEmptyLoop
  rw [hlen, removeEmptyFrom_add,
    removeEmptyFrom_nonempty ls (List.replicate k "") hne _ ls.length 0 (by omega)]
  simp only [Option.some_bind, Nat.zero_add]
  have h := removeEmptyFrom_trailing ls k k 0 (by omega)
  simp only [Nat.add_zero, Nat.cast_zero, sub_zero, Nat.zero_add] at h
  rw [h]
  congr 2
  omega

theorem parseList_trailing (content : String) (ls : List String) (k : Nat)
    (hsplit : splitNewline content = ls ++ List.replicate k "") (hne : ∀ l ∈ ls, l ≠ "") :
    parseList content = some (if ls.length = 0 then (none, none) else (some ls, none)) := by
  have hs : (0 : Int) ≤ (ls.length : Int) - 1 + 1 ∧
      (ls.length : Int) - 1 + 1 ≤ ((ls ++ List.replicate k "").length : Int) := by
    simp only [List.length_append, List.length_replicate]
    omega
  have htn : ((ls.length : Int) - 1 + 1).toNat = ls.length := by omega
  simp only [parseList, hsplit, removeEmptyLoop_trailing ls k hne, Option.some_bind, sliceTo,
    hs, and_self, if_true, Option.map_some', htn, List.take_left]

theorem splitNewline_newlines (k : Nat) :
    splitNewline (String.mk (List.replicate k '\n')) = List.replicate (k + 1) "" := by
  unfold splitNewline
  simp only [String.toList]
  induction k with
  | zero => rfl
  | succ k ih =>
    rw [List.replicate_succ, List.splitOn, List.splitOnP_cons]
    simp only [beq_self_eq_true, if_true, List.map_cons]
    rw [List.splitOn] at ih
    rw [ih]
    rfl

/-! ## The option blocks of `generateUnboundConf` -/

theorem deleteKey_idem (m : List (String × String)) (key : String) :
    deleteKey (deleteKey m key) key = deleteKey m key := by
  simp [deleteKey, List.filter_filter]

theorem foldl_deleteTrustAnchor (libre : String) (ps : List String) :
    ∀ sect : List (String × String),
      ps.foldl (fun sect provider =>
        if provider = libre then deleteKey sect "trust-anchor-file" else sect) sect =
      if libre ∈ ps then deleteKey sect "trust-anchor-file" else sect := by
  induction ps with
  | nil => intro sect; simp
  | cons p ps ih =>
    intro sect
    rw [List.foldl_cons, ih]
    by_cases hp : p = libre
    · subst hp
      simp only [if_true, deleteKey_idem, List.mem_cons, true_or]
      split <;> rfl
    · have hne : ¬ libre = p := fun h => hp h.symm
      simp only [hp, if_false, List.mem_cons, hne, false_or]

theorem serverOptions_eq (c : Constants) (settings : UnboundSettings)
    (unboundDir username : String) :
    serverOptions c settings unboundDir username =
      if c.LibreDNS ∈ settings.Providers then
        deleteKey (serverSection c settings unboundDir username) "trust-anchor-file"
      else serverSection c settings unboundDir username := by
  unfold serverOptions
  exact foldl_deleteTrustAnchor _ _ _

theorem serverSection_length (c : Constants) (settings : UnboundSettings)
    (unboundDir username : String) :
    (serverSection c settings unboundDir username).length = 29 := rfl

theorem deleteKey_serverSection_length (c : Constants) (settings : UnboundSettings)
    (unboundDir username : String) :
    (deleteKey (serverSection c settings unboundDir username) "trust-anchor-file").length
      = 28 := by
  simp [deleteKey, serverSection]

theorem mem_serverLines (c : Constants) (settings : UnboundSettings)
    (unboundDir username : String)
    (rangeOrder : List (String × String) → List (String × String))
    (hro : IsRangeOrder rangeOrder) (line : String) :
    line ∈ serverLines c settings unboundDir username rangeOrder ↔
      ∃ kv ∈ serverOptions c settings unboundDir username, optionLine kv = line := by
  unfold serverLines
  rw [(sortSlice_perm _).mem_iff, List.mem_map]
  constructor
  · rintro ⟨kv, hkv, rfl⟩
    exact ⟨kv, (hro _).mem_iff.1 hkv, rfl⟩
  · rintro ⟨kv, hkv, rfl⟩
    exact ⟨kv, (hro _).mem_iff.2 hkv, rfl⟩

theorem serverLines_length (c : Constants) (settings : UnboundSettings)
    (unboundDir username : String)
    (rangeOrder : List (String × String) → List (String × String))
    (hro : IsRangeOrder rangeOrder) :
    (serverLines c settings unboundDir username rangeOrder).length =
      if c.LibreDNS ∈ settings.Providers then 28 else 29 := by
  unfold serverLines
  rw [(sortSlice_perm _).length_eq, List.length_map, (hro _).length_eq, serverOptions_eq]
  split
  · exact deleteKey_serverSection_length c settings unboundDir username
  · rfl

theorem foldl_append_singleton {α β : Type} (f : α → β) (l : List α) :
    ∀ acc : List β, l.foldl (fun lines a => lines ++ [f a]) acc = acc ++ l.map f := by
  induction l with
  | nil => intro acc; simp
  | cons a l ih => intro acc; simp [ih]

theorem forwardAddr_foldl (c : Constants) (ps : List String) : ∀ acc : List String,
    ps.foldl
      (fun lines provider =>
        let providerData := c.GetProviderData provider
        providerData.IPs.foldl
          (fun lines ip => lines ++ [forwardAddrLine ip providerData.Host]) lines) acc =
    acc ++ ps.flatMap fun provider =>
      (c.GetProviderData provider).IPs.map fun ip =>
        "  forward-addr: " ++ ip ++ "@853#" ++ (c.GetProviderData provider).Host := by
  induction ps with
  | nil => intro acc; simp
  | cons p ps ih =>
    intro acc
    rw [List.foldl_cons, ih]
    simp only [foldl_append_singleton, List.flatMap_cons, List.append_assoc]
    rfl

theorem forwardZone_sorted (settings : UnboundSettings)
    (rangeOrder : List (String × String) → List (String × String))
    (hro : IsRangeOrder rangeOrder) :
    sortSlice ((rangeOrder (forwardZoneSection settings)).map optionLine) =
      [ "  forward-no-cache: " ++ (if settings.Caching then "no" else "yes"),
        "  forward-tls-upstream: yes", "  name: \".\"" ] := by
  rw [sortSlice_congr ((hro (forwardZoneSection settings)).map optionLine)]
  unfold forwardZoneSection
  cases settings.Caching <;> decide

theorem forwardZoneLines_eq (c : Constants) (settings : UnboundSettings)
    (rangeOrder : List (String × String) → List (String × String))
    (hro : IsRangeOrder rangeOrder) :
    forwardZoneLines c settings rangeOrder =
      [ "  forward-no-cache: " ++ (if settings.Caching then "no" else "yes"),
        "  forward-tls-upstream: yes", "  name: \".\"" ] ++ forwardAddrLines c settings := by
  unfold forwardZoneLines forwardAddrLines
  rw [forwardAddr_foldl, forwardZone_sorted settings rangeOrder hro]

theorem forwardAddrLines_length (c : Constants) (settings : UnboundSettings) :
    (forwardAddrLines c settings).length =
      (settings.Providers.map fun provider => (c.GetProviderData provider).IPs.length).sum := by
  unfold forwardAddrLines
  rw [List.flatMap_def, List.length_flatten, List.map_map]
  congr 1
  apply List.map_congr_left
  intro p _
  simp

theorem forwardZone_lines_nodup (settings : UnboundSettings) :
    ((forwardZoneSection settings).map optionLine).Nodup := by
  apply nodup_optionLines
  have hk : (forwardZoneSection settings).map Prod.fst =
      ["name", "forward-tls-upstream", "forward-no-cache"] := rfl
  rw [hk]
  decide

/-! ## Status codes and fetched entries -/

theorem errBadStatusCode_is_wrapped (msg : String) :
    (GoError.wrap ErrBadStatusCode msg).isBadStatusCode = true := rfl

theorem sample_ads_fetched :
    Fetched sampleClient (hostnameURLs sampleURLs true true true) "ads.example.com" :=
  ⟨"https://lists.example/malicious-hostnames.updated", by decide,
    ["ads.example.com", "evil.example.org"], by decide, by decide⟩

/-! ## The claims -/

/-- C1: the lines returned by `buildBlockedHostnames` are, each exactly once and with
nothing else, the lines `  local-zone: "h" static` for the hostnames `h` that are an entry of
a successfully fetched list or a user-blocked hostname matching no allow entry (neither
equal to it nor ending with a dot followed by it), and that are not in the allow list;
the function returns for every arrival order of the fetch results. With
`blockedHostnames = ["ads.example.com"]`, `allowedHostnames = ["example.com"]` and no
category enabled the result is empty. -/
theorem buildBlockedHostnames_exact_lines (client : String → HttpOutcome)
    (urls : BlockListURLs) (bm ba bs : Bool) (blocked allowed : List String)
    (out : List String × List GoError)
    (h : HostnamesRun client urls bm ba bs blocked allowed out) :
    HostnamesReturns client urls bm ba bs blocked allowed ∧
    (out.1.Nodup ∧
      ∀ line, line ∈ out.1 ↔ ∃ x, line = hostnameLine x ∧
        (Fetched client (hostnameURLs urls bm ba bs) x ∨
          (x ∈ blocked ∧ ∀ a ∈ allowed, ¬ (x = a ∨ ("." ++ a).toList <:+ x.toList))) ∧
        x ∉ allowed) ∧
    (∀ out', HostnamesRun client urls false false false ["ads.example.com"] ["example.com"]
      out' → out'.1 = []) := by
  refine ⟨hostnamesReturns _ _ _ _ _ _ _, ?_, ?_⟩
  · obtain ⟨keys, hnd, hout, hmem, _⟩ := hostnamesRun_keys h
    refine ⟨by rw [hout]; exact hnd.map hostnameLine_injective, ?_⟩
    intro line
    rw [hout, List.mem_map]
    constructor
    · rintro ⟨x, hx, rfl⟩
      have := (hmem x).1 hx
      rw [FinalHostname, isAllowed_eq_false_iff] at this
      exact ⟨x, rfl, this⟩
    · rintro ⟨x, rfl, hx⟩
      refine ⟨x, (hmem x).2 ?_, rfl⟩
      rw [FinalHostname, isAllowed_eq_false_iff]
      exact hx
  · intro out' h'
    obtain ⟨keys, _, hout, hmem, _⟩ := hostnamesRun_keys h'
    have hkeys : keys = [] := by
      apply List.eq_nil_iff_forall_not_mem.2
      intro x hx
      rcases (hmem x).1 hx with ⟨⟨u, hu, _⟩ | ⟨hb, hal⟩, _⟩
      · simp [hostnameURLs, enabledURLs] at hu
      · simp only [List.mem_singleton] at hb
        subst hb
        revert hal
        decide
    rw [hout, hkeys]
    rfl

theorem buildBlockedHostnames_exact_lines_witness :
    HostnamesRun sampleClient sampleURLs true true true sampleBlocked sampleAllowed
      sampleHostnamesOut ∧
    ∀ line, line ∈ sampleHostnamesOut.1 ↔
      ∃ x, line = hostnameLine x ∧
        (Fetched sampleClient (hostnameURLs sampleURLs true true true) x ∨
          (x ∈ sampleBlocked ∧
            ∀ a ∈ sampleAllowed, ¬ (x = a ∨ ("." ++ a).toList <:+ x.toList))) ∧
        x ∉ sampleAllowed :=
  ⟨sampleHostnamesRun,
    (buildBlockedHostnames_exact_lines sampleClient sampleURLs true true true sampleBlocked
      sampleAllowed _ sampleHostnamesRun).2.1.2⟩

/-- C2: for every allow-listed hostname `a` the line `  local-zone: "a" static` is absent
from the lines returned by `buildBlockedHostnames`, and from the hostname lines returned by
`BuildBlocked`, whatever the fetched lists and the user block list contain (and the
function returns for every arrival order of the fetch results). -/
theorem allowed_hostname_line_absent (client : String → HttpOutcome)
    (urls : BlockListURLs) (bm ba bs : Bool) (blocked allowed : List String)
    (out : List String × List GoError) (a : String)
    (h : HostnamesRun client urls bm ba bs blocked allowed out) (ha : a ∈ allowed) :
    HostnamesReturns client urls bm ba bs blocked allowed ∧
    hostnameLine a ∉ out.1 ∧
    ∀ blockedIPs bout,
      BuildBlockedRun client urls bm ba bs blocked blockedIPs allowed bout →
        hostnameLine a ∉ bout.1 := by
  refine ⟨hostnamesReturns _ _ _ _ _ _ _, ?_, ?_⟩
  · intro hmem
    exact ((hostnamesRun_line_iff h a).1 hmem).2 ha
  · intro blockedIPs bout hb hmem
    obtain ⟨hout, iout, hh, _, h1, _, _⟩ := buildBlockedRun_spec hb
    rw [h1, (sortSlice_perm _).mem_iff] at hmem
    exact ((hostnamesRun_line_iff hh a).1 hmem).2 ha

theorem allowed_hostname_line_absent_witness :
    (HostnamesRun sampleClient sampleURLs true true true sampleBlocked sampleAllowed
      sampleHostnamesOut ∧ "example.com" ∈ sampleAllowed) ∧
    hostnameLine "example.com" ∉ sampleHostnamesOut.1 :=
  ⟨⟨sampleHostnamesRun, by decide⟩,
    (allowed_hostname_line_absent sampleClient sampleURLs true true true sampleBlocked
      sampleAllowed _ "example.com" sampleHostnamesRun (by decide)).2.1⟩

/-- C3 (as stated, refuted): on the sample network with only the malicious category
enabled, `ads.example.com` is user-blocked and ends with `.example.com`, which is
allow-listed, yet its line is returned, because the name is also an entry of the fetched
malicious list. -/
theorem suffix_match_not_excluded_when_fetched :
    ¬ ∀ out, HostnamesRun sampleClient sampleURLs true false false ["ads.example.com"]
        ["example.com"] out →
      ∀ a ∈ ["example.com"], ∀ b ∈ ["ads.example.com"],
        (b = a ∨ ("." ++ a).toList <:+ b.toList) → hostnameLine b ∉ out.1 := by
  intro hall
  have hrun : HostnamesRun sampleClient sampleURLs true false false ["ads.example.com"]
      ["example.com"]
      (["  local-zone: \"evil.example.org\" static", "  local-zone: \"ads.example.com\" static"],
        []) :=
    hostnamesRun_sequential _ _ _ _ _ _ _
      [[.results (some ["ads.example.com", "evil.example.org"]), .err none]] _
      (by decide) (by decide)
  exact hall _ hrun "example.com" (by decide) "ads.example.com" (by decide)
    (Or.inr (by decide)) (by decide)

/-- C3 (amended): for an allow-listed hostname `a` and a user-blocked hostname `b` with
`b = a` or `b` ending with `"." + a`, the line of `b` is among the lines returned by
`buildBlockedHostnames` exactly when `b` is an entry of a successfully fetched list and is
not itself in the allow list; so it is absent whenever no fetched list contains `b`. -/
theorem suffix_match_line_iff (client : String → HttpOutcome)
    (urls : BlockListURLs) (bm ba bs : Bool) (blocked allowed : List String)
    (out : List String × List GoError) (a b : String)
    (h : HostnamesRun client urls bm ba bs blocked allowed out)
    (ha : a ∈ allowed) (_hb : b ∈ blocked)
    (hm : b = a ∨ ("." ++ a).toList <:+ b.toList) :
    HostnamesReturns client urls bm ba bs blocked allowed ∧
    (hostnameLine b ∈ out.1 ↔
      (Fetched client (hostnameURLs urls bm ba bs) b ∧ b ∉ allowed)) ∧
    (¬ Fetched client (hostnameURLs urls bm ba bs) b → hostnameLine b ∉ out.1) := by
  have hal : isAllowed b allowed = true :=
    (isAllowed_iff b allowed).2 ⟨a, ha, (allowMatches_iff b a).2 hm⟩
  have hiff : hostnameLine b ∈ out.1 ↔
      (Fetched client (hostnameURLs urls bm ba bs) b ∧ b ∉ allowed) := by
    rw [hostnamesRun_line_iff h, FinalHostname, hal]
    simp
  exact ⟨hostnamesReturns _ _ _ _ _ _ _, hiff, fun hnf hmem => hnf (hiff.1 hmem).1⟩

theorem suffix_match_line_iff_witness :
    (HostnamesRun sampleClient sampleURLs true true true sampleBlocked sampleAllowed
      sampleHostnamesOut ∧
      "example.com" ∈ sampleAllowed ∧ "sub.example.com" ∈ sampleBlocked ∧
      ("sub.example.com" = "example.com" ∨
        ("." ++ "example.com").toList <:+ "sub.example.com".toList)) ∧
    (¬ Fetched sampleClient (hostnameURLs sampleURLs true true true) "sub.example.com" →
      hostnameLine "sub.example.com" ∉ sampleHostnamesOut.1) :=
  ⟨⟨sampleHostnamesRun, by decide, by decide, Or.inr (by decide)⟩,
    (suffix_match_line_iff sampleClient sampleURLs true true true sampleBlocked sampleAllowed
      _ "example.com" "sub.example.com" sampleHostnamesRun (by decide) (by decide)
      (Or.inr (by decide))).2.2⟩

/-- C4 (the code at the failing input): for the body `a.com`, blank line, `b.com`, each
line ended by a newline, `getList` succeeds and its result contains the empty string. -/
theorem getList_keeps_empty_line :
    ∃ results, getList (okResponse "a.com\n\nb.com\n") = some (some results, none) ∧
      results = ["a.com", ""] ∧ "" ∈ results :=
  ⟨["a.com", ""], by decide, rfl, by decide⟩

/-- C5 (the code at the failing input): for the body `a.com`, blank line, `b.com`, each
line ended by a newline, `b.com` is a non-empty line of the body but is not an element of
the list `getList` returns. -/
theorem getList_loses_line :
    "b.com" ∈ splitNewline "a.com\n\nb.com\n" ∧ "b.com" ≠ "" ∧
    ∃ results, getList (okResponse "a.com\n\nb.com\n") = some (some results, none) ∧
      "b.com" ∉ results :=
  ⟨by decide, by decide, ["a.com", ""], by decide, by decide⟩

/-- C6: the `hostnamesLines` and the `ipsLines` returned by `BuildBlocked` are each in
strictly ascending lexicographic order (sorted and without duplicate lines), for every
input, every outcome of the fetches and every arrival order, and `BuildBlocked` returns
for every such order. -/
theorem BuildBlocked_lines_strictly_sorted (client : String → HttpOutcome)
    (urls : BlockListURLs) (bm ba bs : Bool)
    (blockedHostnames blockedIPs allowedHostnames : List String)
    (out : List String × List String × List GoError)
    (h : BuildBlockedRun client urls bm ba bs blockedHostnames blockedIPs allowedHostnames
      out) :
    BuildBlockedReturns client urls bm ba bs blockedHostnames blockedIPs allowedHostnames ∧
    out.1.Sorted (· < ·) ∧ out.2.1.Sorted (· < ·) := by
  obtain ⟨hout, iout, hh, hi, h1, h2, _⟩ := buildBlockedRun_spec h
  rw [h1, h2]
  exact ⟨buildBlockedReturns _ _ _ _ _ _ _ _,
    sortSlice_sorted_lt _ (hostnamesRun_lines_nodup hh),
    sortSlice_sorted_lt _ (ipsRun_lines_nodup hi)⟩

theorem BuildBlocked_lines_strictly_sorted_witness :
    BuildBlockedRun sampleClient sampleURLs true true true sampleBlocked sampleBlockedIPs
      sampleAllowed sampleBuildOut ∧
    sampleBuildOut.1.Sorted (· < ·) ∧ sampleBuildOut.2.1.Sorted (· < ·) :=
  ⟨sampleBuildBlockedRun,
    (BuildBlocked_lines_strictly_sorted sampleClient sampleURLs true true true sampleBlocked
      sampleBlockedIPs sampleAllowed _ sampleBuildBlockedRun).2⟩

/-- C7 (as stated, refuted): in the output for the sample settings the line of the option
`prefetch` does not come before the line of `prefetch-key`, although the key `prefetch` is
below the key `prefetch-key`: the lines are compared whole, and `-` is below `:`. -/
theorem server_lines_not_in_key_order :
    ¬ InKeyOrder (serverOptions sampleConstants sampleSettings "/unbound" "nonrootuser")
      (generateUnboundConf sampleConstants sampleSettings [] [] "/unbound" "nonrootuser"
        id id) := by
  intro h
  have hlt : ("prefetch" : String) < "prefetch-key" := String.lt_iff_toList_lt.2 (by decide)
  have := h ("prefetch", "yes") (by decide) ("prefetch-key", "yes") (by decide) hlt
  revert this
  decide

/-- C7 (amended): for every settings value, working directory and username, and every
iteration order of the map, the option lines of the `server:` block (the lines that follow
`server:` in the output of `generateUnboundConf`) are the rendered options `  key: value`
in strictly ascending lexicographic order of the whole lines. -/
theorem server_lines_sorted_by_line (c : Constants) (settings : UnboundSettings)
    (unboundDir username : String)
    (rangeOrder : List (String × String) → List (String × String))
    (hro : IsRangeOrder rangeOrder) :
    (serverLines c settings unboundDir username rangeOrder).Sorted (· < ·) ∧
    (serverLines c settings unboundDir username rangeOrder).Perm
      ((serverOptions c settings unboundDir username).map optionLine) ∧
    (∀ hostnamesLines ipsLines rangeForward,
      generateUnboundConf c settings hostnamesLines ipsLines unboundDir username rangeOrder
        rangeForward =
      "server:" :: (serverLines c settings unboundDir username rangeOrder ++
        (hostnamesLines ++ (ipsLines ++
          ("forward-zone:" :: forwardZoneLines c settings rangeForward))))) := by
  have hperm : ((rangeOrder (serverOptions c settings unboundDir username)).map
      optionLine).Perm ((serverOptions c settings unboundDir username).map optionLine) :=
    (hro _).map _
  refine ⟨sortSlice_sorted_lt _ ?_, (sortSlice_perm _).trans hperm, ?_⟩
  · exact hperm.nodup_iff.2 (serverOptions_lines_nodup c settings unboundDir username)
  · intro hostnamesLines ipsLines rangeForward
    simp [generateUnboundConf]

theorem server_lines_sorted_by_line_witness :
    IsRangeOrder (List.reverse : List (String × String) → List (String × String)) ∧
    (serverLines sampleConstants sampleSettings "/unbound" "nonrootuser"
      List.reverse).Sorted (· < ·) :=
  ⟨fun m => List.reverse_perm m,
    (server_lines_sorted_by_line sampleConstants sampleSettings "/unbound" "nonrootuser"
      List.reverse (fun m => List.reverse_perm m)).1⟩

/-- C8: the lines returned by `buildBlockedIPs` are, each exactly once and with nothing
else, the lines `  private-address: x` for `x` an entry of a successfully fetched list or
of `blockedIPs`; the function returns for every arrival order of the fetch results. With
`blockedIPs = ["1.2.3.4"]` and no category enabled the output is exactly the one line
`  private-address: 1.2.3.4`. -/
theorem buildBlockedIPs_exact_lines (client : String → HttpOutcome)
    (urls : BlockListURLs) (bm ba bs : Bool) (blockedIPs : List String)
    (out : List String × List GoError)
    (h : IPsRun client urls bm ba bs blockedIPs out) :
    IPsReturns client urls bm ba bs blockedIPs ∧
    (out.1.Nodup ∧
      ∀ line, line ∈ out.1 ↔ ∃ x, line = ipLine x ∧
        (Fetched client (ipURLs urls bm ba bs) x ∨ x ∈ blockedIPs)) ∧
    (∀ out', IPsRun client urls false false false ["1.2.3.4"] out' →
      out'.1 = ["  private-address: 1.2.3.4"]) := by
  refine ⟨ipsReturns _ _ _ _ _ _, ?_, ?_⟩
  · obtain ⟨keys, hnd, hout, hmem, _⟩ := ipsRun_keys h
    refine ⟨by rw [hout]; exact hnd.map ipLine_injective, ?_⟩
    intro line
    rw [hout, List.mem_map]
    constructor
    · rintro ⟨x, hx, rfl⟩
      exact ⟨x, rfl, (hmem x).1 hx⟩
    · rintro ⟨x, rfl, hx⟩
      exact ⟨x, (hmem x).2 hx, rfl⟩
  · intro out' h'
    obtain ⟨keys, hnd, hout, hmem, _⟩ := ipsRun_keys h'
    have hkeys : keys.Perm ["1.2.3.4"] := by
      rw [List.perm_ext_iff_of_nodup hnd (by simp)]
      intro x
      rw [hmem]
      constructor
      · rintro (⟨u, hu, _⟩ | hx)
        · simp [ipURLs, enabledURLs] at hu
        · exact hx
      · intro hx
        exact Or.inr hx
    rw [hout, List.perm_singleton.1 hkeys]
    rfl

theorem buildBlockedIPs_exact_lines_witness :
    IPsRun sampleClient sampleURLs true true true sampleBlockedIPs sampleIPsOut ∧
    ∀ line, line ∈ sampleIPsOut.1 ↔
      ∃ x, line = ipLine x ∧
        (Fetched sampleClient (ipURLs sampleURLs true true true) x ∨ x ∈ sampleBlockedIPs) :=
  ⟨sampleIPsRun,
    (buildBlockedIPs_exact_lines sampleClient sampleURLs true true true sampleBlockedIPs _
      sampleIPsRun).2.1.2⟩

/-- C9: fetch failures are captured, not thrown. For every combination of fetch outcomes
both aggregations return; the lines returned by `buildBlockedHostnames` (and by
`buildBlockedIPs`) are also returned when every failed category is treated as not enabled,
and every run with the failed categories disabled returns the same lines (up to the
unspecified iteration order of the map, hence the same sorted sequence) and no error; every
entry of a successful fetch is merged; and the returned errors are, one each, the errors of
the failed fetches. -/
theorem fetch_failures_captured (client : String → HttpOutcome) (urls : BlockListURLs)
    (bm ba bs : Bool) (blocked allowed blockedIPs : List String)
    (hout iout : List String × List GoError)
    (h : HostnamesRun client urls bm ba bs blocked allowed hout)
    (hi : IPsRun client urls bm ba bs blockedIPs iout) :
    HostnamesReturns client urls bm ba bs blocked allowed ∧
    IPsReturns client urls bm ba bs blockedIPs ∧
    ((∃ errs, HostnamesRun client urls
        (bm && fetchOK client urls.maliciousBlockListHostnamesURL)
        (ba && fetchOK client urls.adsBlockListHostnamesURL)
        (bs && fetchOK client urls.surveillanceBlockListHostnamesURL)
        blocked allowed (hout.1, errs)) ∧
      (∀ out', HostnamesRun client urls
        (bm && fetchOK client urls.maliciousBlockListHostnamesURL)
        (ba && fetchOK client urls.adsBlockListHostnamesURL)
        (bs && fetchOK client urls.surveillanceBlockListHostnamesURL)
        blocked allowed out' →
          out'.1.Perm hout.1 ∧ sortSlice out'.1 = sortSlice hout.1 ∧ out'.2 = []) ∧
      (∀ x, Fetched client (hostnameURLs urls bm ba bs) x → x ∉ allowed →
        hostnameLine x ∈ hout.1) ∧
      hout.2.Perm (fetchErrors client (hostnameURLs urls bm ba bs))) ∧
    ((∃ errs, IPsRun client urls
        (bm && fetchOK client urls.maliciousBlockListIPsURL)
        (ba && fetchOK client urls.adsBlockListIPsURL)
        (bs && fetchOK client urls.surveillanceBlockListIPsURL)
        blockedIPs (iout.1, errs)) ∧
      (∀ out', IPsRun client urls
        (bm && fetchOK client urls.maliciousBlockListIPsURL)
        (ba && fetchOK client urls.adsBlockListIPsURL)
        (bs && fetchOK client urls.surveillanceBlockListIPsURL)
        blockedIPs out' →
          out'.1.Perm iout.1 ∧ sortSlice out'.1 = sortSlice iout.1 ∧ out'.2 = []) ∧
      (∀ x, Fetched client (ipURLs urls bm ba bs) x → ipLine x ∈ iout.1) ∧
      iout.2.Perm (fetchErrors client (ipURLs urls bm ba bs))) := by
  refine ⟨hostnamesReturns _ _ _ _ _ _ _, ipsReturns _ _ _ _ _ _, ?_, ?_⟩
  · obtain ⟨keys, hnd, hlines, hmem, herrs⟩ := hostnamesRun_keys h
    refine ⟨?_, ?_, ?_, herrs⟩
    · rw [hlines]
      exact hostnamesRun_of_keys client urls _ _ _ blocked allowed keys hnd
        (fun x => (hmem x).trans (finalHostname_restrict client urls bm ba bs blocked allowed x).symm)
    · intro out' h'
      obtain ⟨keys', hnd', hlines', hmem', herrs'⟩ := hostnamesRun_keys h'
      have hk : keys'.Perm keys := by
        rw [List.perm_ext_iff_of_nodup hnd' hnd]
        intro x
        rw [hmem', hmem, finalHostname_restrict]
      have hp : out'.1.Perm hout.1 := by
        rw [hlines', hlines]
        exact hk.map _
      refine ⟨hp, sortSlice_congr hp, ?_⟩
      have hnil := fetchErrors_restrict client bm ba bs urls.maliciousBlockListHostnamesURL
        urls.adsBlockListHostnamesURL urls.surveillanceBlockListHostnamesURL
      unfold hostnameURLs at herrs'
      rw [hnil] at herrs'
      exact List.perm_nil.1 herrs'
    · intro x hx hxa
      exact (hostnamesRun_line_iff h x).2 ⟨Or.inl hx, hxa⟩
  · obtain ⟨keys, hnd, hlines, hmem, herrs⟩ := ipsRun_keys hi
    refine ⟨?_, ?_, ?_, herrs⟩
    · rw [hlines]
      apply ipsRun_of_keys client urls _ _ _ blockedIPs keys hnd
      intro x
      rw [hmem]
      unfold ipURLs
      rw [fetched_restrict]
    · intro out' h'
      obtain ⟨keys', hnd', hlines', hmem', herrs'⟩ := ipsRun_keys h'
      have hk : keys'.Perm keys := by
        rw [List.perm_ext_iff_of_nodup hnd' hnd]
        intro x
        rw [hmem', hmem]
        unfold ipURLs
        rw [fetched_restrict]
      have hp : out'.1.Perm iout.1 := by
        rw [hlines', hlines]
        exact hk.map _
      refine ⟨hp, sortSlice_congr hp, ?_⟩
      have hnil := fetchErrors_restrict client bm ba bs urls.maliciousBlockListIPsURL
        urls.adsBlockListIPsURL urls.surveillanceBlockListIPsURL
      unfold ipURLs at herrs'
      rw [hnil] at herrs'
      exact List.perm_nil.1 herrs'
    · intro x hx
      exact (ipsRun_line_iff hi x).2 (Or.inl hx)

theorem fetch_failures_captured_witness :
    (HostnamesRun sampleClient sampleURLs true true true sampleBlocked sampleAllowed
      sampleHostnamesOut ∧
     IPsRun sampleClient sampleURLs true true true sampleBlockedIPs
      sampleIPsOut) ∧
    sampleHostnamesOut.2.Perm
      (fetchErrors sampleClient (hostnameURLs sampleURLs true true true)) ∧
    sampleIPsOut.2.Perm (fetchErrors sampleClient (ipURLs sampleURLs true true true)) :=
  ⟨⟨sampleHostnamesRun, sampleIPsRun⟩,
    (fetch_failures_captured sampleClient sampleURLs true true true sampleBlocked sampleAllowed
      sampleBlockedIPs _ _ sampleHostnamesRun sampleIPsRun).2.2.1.2.2.2,
    (fetch_failures_captured sampleClient sampleURLs true true true sampleBlocked sampleAllowed
      sampleBlockedIPs _ _ sampleHostnamesRun sampleIPsRun).2.2.2.2.2.2⟩

/-- C10: merging is order-independent. For fixed fetch outcomes and fixed user lists, any
two runs of `BuildBlocked` (whatever the arrival orders of the fetch results and of the
aggregation results, and whatever the iteration orders of the merged sets) return the same
`hostnamesLines` sequence and the same `ipsLines` sequence. -/
theorem BuildBlocked_order_independent (client : String → HttpOutcome)
    (urls : BlockListURLs) (bm ba bs : Bool)
    (blockedHostnames blockedIPs allowedHostnames : List String)
    (out₁ out₂ : List String × List String × List GoError)
    (h₁ : BuildBlockedRun client urls bm ba bs blockedHostnames blockedIPs allowedHostnames
      out₁)
    (h₂ : BuildBlockedRun client urls bm ba bs blockedHostnames blockedIPs allowedHostnames
      out₂) :
    BuildBlockedReturns client urls bm ba bs blockedHostnames blockedIPs allowedHostnames ∧
    out₁.1 = out₂.1 ∧ out₁.2.1 = out₂.2.1 := by
  obtain ⟨ho₁, io₁, hh₁, hi₁, e₁, f₁, _⟩ := buildBlockedRun_spec h₁
  obtain ⟨ho₂, io₂, hh₂, hi₂, e₂, f₂, _⟩ := buildBlockedRun_spec h₂
  obtain ⟨k₁, n₁, l₁, m₁, _⟩ := hostnamesRun_keys hh₁
  obtain ⟨k₂, n₂, l₂, m₂, _⟩ := hostnamesRun_keys hh₂
  obtain ⟨j₁, p₁, q₁, r₁, _⟩ := ipsRun_keys hi₁
  obtain ⟨j₂, p₂, q₂, r₂, _⟩ := ipsRun_keys hi₂
  have hk : k₁.Perm k₂ := by
    rw [List.perm_ext_iff_of_nodup n₁ n₂]
    intro x
    rw [m₁, m₂]
  have hj : j₁.Perm j₂ := by
    rw [List.perm_ext_iff_of_nodup p₁ p₂]
    intro x
    rw [r₁, r₂]
  rw [e₁, e₂, f₁, f₂, l₁, l₂, q₁, q₂]
  exact ⟨buildBlockedReturns _ _ _ _ _ _ _ _, sortSlice_congr (hk.map _),
    sortSlice_congr (hj.map _)⟩

theorem BuildBlocked_order_independent_witness :
    (BuildBlockedRun sampleClient sampleURLs true true true sampleBlocked sampleBlockedIPs
      sampleAllowed
      sampleBuildOut ∧
     BuildBlockedRun sampleClient sampleURLs true true true sampleBlocked sampleBlockedIPs
      sampleAllowed
      sampleBuildOut2) ∧
    sampleBuildOut.1 = sampleBuildOut2.1 ∧ sampleBuildOut.2.1 = sampleBuildOut2.2.1 :=
  ⟨⟨sampleBuildBlockedRun, sampleBuildBlockedRun2⟩,
    (BuildBlocked_order_independent sampleClient sampleURLs true true true sampleBlocked
      sampleBlockedIPs sampleAllowed _ _ sampleBuildBlockedRun sampleBuildBlockedRun2).2⟩

/-- C12: the sequence returned by `generateUnboundConf` is `server:`, the server option
lines, the hostname lines, the IP lines, `forward-zone:` and the forward-zone lines, in
this order; the hostname and IP lines are embedded verbatim and contiguously. There are 29
server option lines, 28 when LibreDNS is configured, each of the form `  key: value`. -/
theorem generateUnboundConf_layout (c : Constants) (settings : UnboundSettings)
    (hostnamesLines ipsLines : List String) (unboundDir username : String)
    (rangeServer rangeForward : List (String × String) → List (String × String))
    (hro : IsRangeOrder rangeServer) :
    generateUnboundConf c settings hostnamesLines ipsLines unboundDir username rangeServer
        rangeForward =
      ["server:"] ++ serverLines c settings unboundDir username rangeServer ++
        hostnamesLines ++ ipsLines ++ ["forward-zone:"] ++
        forwardZoneLines c settings rangeForward ∧
    (serverLines c settings unboundDir username rangeServer).length =
      (if c.LibreDNS ∈ settings.Providers then 28 else 29) ∧
    (∀ line ∈ serverLines c settings unboundDir username rangeServer,
      ∃ key value, line = "  " ++ key ++ ": " ++ value) := by
  refine ⟨rfl, serverLines_length c settings unboundDir username rangeServer hro, ?_⟩
  intro line hline
  rw [mem_serverLines c settings unboundDir username rangeServer hro] at hline
  obtain ⟨kv, _, rfl⟩ := hline
  exact ⟨kv.1, kv.2, rfl⟩

theorem generateUnboundConf_layout_witness :
    IsRangeOrder (id : List (String × String) → List (String × String)) ∧
    (serverLines sampleConstants sampleLibreSettings "/unbound" "nonrootuser" id).length =
      28 :=
  ⟨isRangeOrder_id,
    (generateUnboundConf_layout sampleConstants sampleLibreSettings [] [] "/unbound"
      "nonrootuser" id id isRangeOrder_id).2.1.trans (by decide)⟩

/-- C13: the lines that follow `forward-zone:` in the output of `generateUnboundConf` are
`  forward-no-cache: no` when `Caching` is true and `  forward-no-cache: yes` when it is
false, then `  forward-tls-upstream: yes`, then `  name: "."`, then one line
`  forward-addr: <ip>@853#<host>` for each configured provider, in configured order, and
each of its addresses, in order; their number is the sum of the address counts. -/
theorem forward_zone_lines (c : Constants) (settings : UnboundSettings)
    (hostnamesLines ipsLines : List String) (unboundDir username : String)
    (rangeServer rangeForward : List (String × String) → List (String × String))
    (hrf : IsRangeOrder rangeForward) :
    generateUnboundConf c settings hostnamesLines ipsLines unboundDir username rangeServer
        rangeForward =
      ["server:"] ++ serverLines c settings unboundDir username rangeServer ++
        hostnamesLines ++ ipsLines ++ ["forward-zone:"] ++
        ([ "  forward-no-cache: " ++ (if settings.Caching then "no" else "yes"),
           "  forward-tls-upstream: yes", "  name: \".\"" ] ++
          (settings.Providers.flatMap fun provider =>
            (c.GetProviderData provider).IPs.map fun ip =>
              "  forward-addr: " ++ ip ++ "@853#" ++ (c.GetProviderData provider).Host)) ∧
    (forwardAddrLines c settings).length =
      (settings.Providers.map fun provider =>
        (c.GetProviderData provider).IPs.length).sum := by
  refine ⟨?_, forwardAddrLines_length c settings⟩
  unfold generateUnboundConf
  rw [forwardZoneLines_eq c settings rangeForward hrf]
  rfl

theorem forward_zone_lines_witness :
    IsRangeOrder (List.reverse : List (String × String) → List (String × String)) ∧
    generateUnboundConf sampleConstants sampleSettings [] [] "/unbound" "nonrootuser" id
        List.reverse =
      ["server:"] ++ serverLines sampleConstants sampleSettings "/unbound" "nonrootuser" id ++
        [] ++ [] ++ ["forward-zone:"] ++
        [ "  forward-no-cache: no", "  forward-tls-upstream: yes", "  name: \".\"",
          "  forward-addr: 1.1.1.1@853#cloudflare-dns.com",
          "  forward-addr: 1.0.0.1@853#cloudflare-dns.com" ] :=
  ⟨fun m => List.reverse_perm m,
    (forward_zone_lines sampleConstants sampleSettings [] [] "/unbound" "nonrootuser" id
      List.reverse (fun m => List.reverse_perm m)).1⟩

/-- C14 (as stated, refuted): a response with status code 200 whose body cannot be read,
the read failing with the error value `ErrBadStatusCode`, makes `getList` return
`ErrBadStatusCode`: the error of the read is handed on unchanged. -/
theorem getList_200_hands_on_read_error :
    ¬ ∀ r : Response, r.statusCode = 200 → ∀ results e,
        getList (.response r) = some (results, some e) → e.isBadStatusCode = false := by
  intro hall
  have h := hall sampleReadFailure (by decide) none ErrBadStatusCode (by decide)
  revert h
  decide

/-- C14 (amended): for every response whose status code is not 200, `getList` returns a nil
result and an error that wraps `ErrBadStatusCode` and whose message is
`bad HTTP status code: <code> <status>`, so it carries the decimal status code. For a
response with status code 200 `getList` creates no such error: an error it returns comes
with a nil result and is the error of reading the body, or of closing it after a successful
read, handed on unchanged; and when the body is read and closed without error it returns no
error at all. -/
theorem getList_bad_status (r : Response) (h : r.statusCode ≠ 200) :
    (∃ e, getList (.response r) = some (none, some e) ∧
      e.isBadStatusCode = true ∧
      e = .wrap ErrBadStatusCode e.message ∧
      e.message = "bad HTTP status code: " ++ toString r.statusCode ++ " " ++ r.status ∧
      (toString r.statusCode).toList <:+: e.message.toList) ∧
    (∀ r' : Response, r'.statusCode = 200 → ∀ results e,
      getList (.response r') = some (results, some e) →
        results = none ∧
        (r'.body = .error e ∨ ∃ content, r'.body = .ok content ∧ r'.close = some e)) ∧
    (∀ status content, ∃ results,
      getList (successResponse status content) = some (results, none)) := by
  refine ⟨?_, ?_, ?_⟩
  · refine ⟨.wrap ErrBadStatusCode
      (ErrBadStatusCode.message ++ ": " ++ toString r.statusCode ++ " " ++ r.status), ?_,
      errBadStatusCode_is_wrapped _, rfl, rfl, ?_⟩
    · simp [getList, statusOK, h]
    · refine ⟨"bad HTTP status code: ".toList, (" " ++ r.status).toList, ?_⟩
      simp [GoError.message, ErrBadStatusCode, String.toList, String.data_append]
  · intro r' h200 results e hget
    refine ⟨getList_err_results _ results e hget, ?_⟩
    unfold getList at hget
    simp only [h200, statusOK, ne_eq, not_true_eq_false, if_false] at hget
    split at hget
    · rename_i e' hb
      simp only [Option.some.injEq, Prod.mk.injEq] at hget
      rw [hb, ← hget.2]
      exact Or.inl rfl
    · rename_i content hb
      split at hget
      · rename_i e' hc
        simp only [Option.some.injEq, Prod.mk.injEq] at hget
        rw [← hget.2]
        exact Or.inr ⟨content, hb, hc⟩
      · obtain ⟨res, hres, _⟩ := parseList_length content
        rw [hres] at hget
        simp at hget
  · intro status content
    obtain ⟨results, hres, _⟩ := parseList_length content
    exact ⟨results, by rw [getList_ok, hres]⟩

theorem getList_bad_status_witness :
    sampleNotFound.statusCode ≠ 200 ∧
    ∃ e, getList (.response sampleNotFound) = some (none, some e) ∧
      e.isBadStatusCode = true ∧
      e = .wrap ErrBadStatusCode e.message ∧
      e.message = "bad HTTP status code: " ++ toString sampleNotFound.statusCode ++ " " ++
        sampleNotFound.status ∧
      (toString sampleNotFound.statusCode).toList <:+: e.message.toList :=
  ⟨by decide, (getList_bad_status sampleNotFound (by decide)).1⟩

/-- C15: for every 200 response whose body is read without error and has no non-empty
line, `getList` returns a nil result and a nil error; this covers the empty body and every
body made only of newline characters. -/
theorem getList_no_entries (status body : String)
    (h : ∀ l ∈ splitNewline body, l = "") :
    getList (successResponse status body) = some (none, none) ∧
    (∀ (k : Nat) (status' : String),
      getList (successResponse status' (String.mk (List.replicate k '\n'))) =
        some (none, none)) := by
  have hall : ∀ ls : List String, (∀ l ∈ ls, l = "") → ∀ content,
      splitNewline content = ls → parseList content = some (none, none) := by
    intro ls hls content hsplit
    have hrep : splitNewline content = [] ++ List.replicate ls.length "" := by
      rw [hsplit, List.nil_append]
      exact List.eq_replicate_iff.2 ⟨rfl, hls⟩
    rw [parseList_trailing content [] ls.length hrep (by simp)]
    rfl
  constructor
  · rw [getList_ok]
    exact hall _ h body rfl
  · intro k status'
    rw [getList_ok]
    refine hall _ ?_ _ (splitNewline_newlines k)
    intro l hl
    exact (List.mem_replicate.1 hl).2

theorem getList_no_entries_witness :
    (∀ l ∈ splitNewline "\n\n", l = "") ∧
    getList (successResponse "200 OK" "\n\n") = some (none, none) :=
  ⟨by decide, (getList_no_entries "200 OK" "\n\n" (by decide)).1⟩

/-- C16: suffix matching applies to user-blocked entries only. For every allow entry `a`
and every entry `f` of a successfully fetched hostname list such that `f` ends with
`"." + a` and `f` is not itself in the allow list, the line `  local-zone: "f" static` is
among the lines returned by `buildBlockedHostnames` (which returns for every arrival
order). -/
theorem fetched_subdomain_stays (client : String → HttpOutcome)
    (urls : BlockListURLs) (bm ba bs : Bool) (blocked allowed : List String)
    (out : List String × List GoError) (a f : String)
    (h : HostnamesRun client urls bm ba bs blocked allowed out)
    (_ha : a ∈ allowed) (hf : Fetched client (hostnameURLs urls bm ba bs) f)
    (_hsuffix : ("." ++ a).toList <:+ f.toList) (hna : f ∉ allowed) :
    HostnamesReturns client urls bm ba bs blocked allowed ∧
    hostnameLine f ∈ out.1 ∧ "  local-zone: \"" ++ f ++ "\" static" ∈ out.1 := by
  have hmem : hostnameLine f ∈ out.1 := (hostnamesRun_line_iff h f).2 ⟨Or.inl hf, hna⟩
  exact ⟨hostnamesReturns _ _ _ _ _ _ _, hmem, hmem⟩

theorem fetched_subdomain_stays_witness :
    (HostnamesRun sampleClient sampleURLs true true true sampleBlocked sampleAllowed
        sampleHostnamesOut ∧
      "example.com" ∈ sampleAllowed ∧
      Fetched sampleClient (hostnameURLs sampleURLs true true true) "ads.example.com" ∧
      ("." ++ "example.com").toList <:+ "ads.example.com".toList ∧
      "ads.example.com" ∉ sampleAllowed) ∧
    "  local-zone: \"" ++ "ads.example.com" ++ "\" static" ∈ sampleHostnamesOut.1 :=
  ⟨⟨sampleHostnamesRun, by decide, sample_ads_fetched, by decide, by decide⟩,
    (fetched_subdomain_stays sampleClient sampleURLs true true true sampleBlocked sampleAllowed
      _ "example.com" "ads.example.com" sampleHostnamesRun (by decide) sample_ads_fetched
      (by decide) (by decide)).2.2⟩

/-- C17: when no empty line precedes a non-empty line in the split body (the split is the
non-empty lines `ls` followed by `k` empty strings), `getList` returns exactly the
non-empty lines of the body in their original order (a nil result when there is none) and
no error. -/
theorem getList_trailing_empty_lines (status body : String) (ls : List String) (k : Nat)
    (hsplit : splitNewline body = ls ++ List.replicate k "")
    (hne : ∀ l ∈ ls, l ≠ "") :
    getList (successResponse status body) =
      some (if ls.length = 0 then (none, none) else (some ls, none)) ∧
    (∃ results, getList (successResponse status body) = some (results, none) ∧
      results.getD [] = (splitNewline body).filter (fun l => decide (l ≠ ""))) ∧
    (splitNewline body).filter (fun l => decide (l ≠ "")) = ls := by
  have hget : getList (successResponse status body) =
      some (if ls.length = 0 then (none, none) else (some ls, none)) := by
    rw [getList_ok]
    exact parseList_trailing body ls k hsplit hne
  have hfilter : (splitNewline body).filter (fun l => decide (l ≠ "")) = ls := by
    rw [hsplit, List.filter_append]
    have h1 : ls.filter (fun l => decide (l ≠ "")) = ls :=
      List.filter_eq_self.2 (fun l hl => by simpa using hne l hl)
    have h2 : (List.replicate k "").filter (fun l => decide (l ≠ "")) = [] := by
      rw [List.filter_eq_nil_iff]
      intro l hl
      simp [(List.mem_replicate.1 hl).2]
    rw [h1, h2, List.append_nil]
  refine ⟨hget, ?_, hfilter⟩
  rw [hget, hfilter]
  by_cases h0 : ls.length = 0
  · refine ⟨none, by rw [if_pos h0], ?_⟩
    rw [List.length_eq_zero.1 h0]
    rfl
  · exact ⟨some ls, by rw [if_neg h0], rfl⟩

theorem getList_trailing_empty_lines_witness :
    (splitNewline "a.com\nb.com\n" = ["a.com", "b.com"] ++ List.replicate 1 "" ∧
      ∀ l ∈ ["a.com", "b.com"], l ≠ "") ∧
    getList (successResponse "200 OK" "a.com\nb.com\n") =
      some (if ["a.com", "b.com"].length = 0 then (none, none)
        else (some ["a.com", "b.com"], none)) :=
  ⟨⟨by decide, by decide⟩,
    (getList_trailing_empty_lines "200 OK" "a.com\nb.com\n" ["a.com", "b.com"] 1 (by decide)
      (by decide)).1⟩

/-- C18: for every response body, `getList` returns without error a list whose number of
entries equals the number of non-empty lines of the body (the elements of the split on
newlines that are not the empty string), wherever the empty lines are. -/
theorem getList_entry_count (status body : String) :
    ∃ results, getList (successResponse status body) = some (results, none) ∧
      (results.getD []).length =
        ((splitNewline body).filter (fun l => decide (l ≠ ""))).length := by
  rw [getList_ok]
  exact parseList_length body

/-- C20: the removal loop of `getList` never indexes out of range. For every slice
`results` (in particular the split of any response body): before every iteration `i` the
earlier iterations have not panicked, the slice has kept its length and
`0 <= last <= len(results) - 1`, so the read of `results[last]` in iteration `i` is in
range and the iteration does not panic; after the loop `-1 <= last <= len(results) - 1` and
the slice expression `results[:last+1]` is valid; so `getList` returns for every body. -/
theorem removeEmptyLoop_in_range (results : List String) :
    (∀ i, i < results.length →
      ∃ st, removeEmptyFrom 0 i (loopStart results) = some st ∧
        st.results.length = results.length ∧
        0 ≤ st.last ∧ st.last ≤ (results.length : Int) - 1 ∧
        (∃ moved, st.results[st.last.toNat]? = some moved) ∧
        ∃ st', removeEmptyIter i st = some st') ∧
    (∃ st, removeEmptyLoop results = some st ∧
      st.results.length = results.length ∧
      -1 ≤ st.last ∧ st.last ≤ (results.length : Int) - 1 ∧
      ∃ out, sliceTo st = some out) ∧
    (∀ status body, ∃ r, getList (successResponse status body) = some r) := by
  refine ⟨?_, ?_, ?_⟩
  · intro i hi
    obtain ⟨st, h, hlen, hrest, hlast⟩ :=
      removeEmptyFrom_state results i 0 (loopStart results) rfl (by omega) (fun _ _ => rfl)
        (by simp [loopStart])
    rw [Nat.zero_add] at hrest hlast
    have hcnt := countP_take_le results i
    obtain ⟨st', hst', _⟩ := removeEmptyIter_state results i st hlen hi hrest hlast
    have hidx : st.last.toNat < st.results.length := by omega
    exact ⟨st, h, hlen, by omega, by omega,
      ⟨st.results[st.last.toNat], List.getElem?_eq_getElem hidx⟩, st', hst'⟩
  · obtain ⟨st, h, hlen, hlast⟩ := removeEmptyLoop_state results
    have hc : results.countP isEmptyLine ≤ results.length := List.countP_le_length _
    have hs : 0 ≤ st.last + 1 ∧ st.last + 1 ≤ (st.results.length : Int) := by omega
    exact ⟨st, h, hlen, by omega, by omega, st.results.take (st.last + 1).toNat,
      by simp only [sliceTo, hs, and_self, if_true]⟩
  · intro status body
    exact getList_total _

/-- C19: `generateUnboundConf` is deterministic although its option blocks are built from
maps: for fixed arguments, any two iteration orders of the server-options map and of the
forward-zone map give the same returned sequence; the rendered option lines of each block
are pairwise distinct and are emitted sorted as whole lines into strictly ascending
order. -/
theorem generateUnboundConf_deterministic (c : Constants) (settings : UnboundSettings)
    (hostnamesLines ipsLines : List String) (unboundDir username : String)
    (rs₁ rs₂ rf₁ rf₂ : List (String × String) → List (String × String))
    (hs₁ : IsRangeOrder rs₁) (hs₂ : IsRangeOrder rs₂)
    (hf₁ : IsRangeOrder rf₁) (hf₂ : IsRangeOrder rf₂) :
    generateUnboundConf c settings hostnamesLines ipsLines unboundDir username rs₁ rf₁ =
      generateUnboundConf c settings hostnamesLines ipsLines unboundDir username rs₂ rf₂ ∧
    ((rs₁ (serverOptions c settings unboundDir username)).map optionLine).Nodup ∧
    (serverLines c settings unboundDir username rs₁).Sorted (· < ·) ∧
    ((rf₁ (forwardZoneSection settings)).map optionLine).Nodup ∧
    (sortSlice ((rf₁ (forwardZoneSection settings)).map optionLine)).Sorted (· < ·) := by
  have hserver : serverLines c settings unboundDir username rs₁ =
      serverLines c settings unboundDir username rs₂ :=
    sortSlice_congr (((hs₁ _).map optionLine).trans ((hs₂ _).map optionLine).symm)
  have hforward : forwardZoneLines c settings rf₁ = forwardZoneLines c settings rf₂ := by
    rw [forwardZoneLines_eq c settings rf₁ hf₁, forwardZoneLines_eq c settings rf₂ hf₂]
  have hnd₁ : ((rs₁ (serverOptions c settings unboundDir username)).map optionLine).Nodup :=
    ((hs₁ _).map optionLine).nodup_iff.2
      (serverOptions_lines_nodup c settings unboundDir username)
  have hnd₂ : ((rf₁ (forwardZoneSection settings)).map optionLine).Nodup :=
    ((hf₁ _).map optionLine).nodup_iff.2 (forwardZone_lines_nodup settings)
  refine ⟨?_, hnd₁, sortSlice_sorted_lt _ hnd₁, hnd₂, sortSlice_sorted_lt _ hnd₂⟩
  unfold generateUnboundConf
  rw [hserver, hforward]

theorem generateUnboundConf_deterministic_witness :
    (IsRangeOrder (id : List (String × String) → List (String × String)) ∧
      IsRangeOrder (List.reverse : List (String × String) → List (String × String))) ∧
    generateUnboundConf sampleConstants sampleSettings sampleBuildOut.1 sampleBuildOut.2.1
        "/unbound" "nonrootuser" id id =
      generateUnboundConf sampleConstants sampleSettings sampleBuildOut.1 sampleBuildOut.2.1
        "/unbound" "nonrootuser" List.reverse List.reverse :=
  ⟨⟨isRangeOrder_id, fun m => List.reverse_perm m⟩,
    (generateUnboundConf_deterministic sampleConstants sampleSettings sampleBuildOut.1
      sampleBuildOut.2.1 "/unbound" "nonrootuser" id List.reverse id List.reverse
      isRangeOrder_id (fun m => List.reverse_perm m) isRangeOrder_id
      (fun m => List.reverse_perm m)).1⟩

end Dns
